import Mathlib

/-!
Verification of the storyblok-fast-client retrieval/resolution engine.

The development shallowly embeds the TypeScript source of
`src/storyblok-fast-client.ts` (and the sibling client file shipping
`resolveNestedComponents` together with `utils.ts`) into Lean: JS values
become the inductive family `JVal`/`JList`/`JFields`, JS objects become
key/value field lists in property-insertion order, fallible or sleeping
code returns explicit results together with the list of suspensions
performed, and the recursive whole-tree resolvers are given fuel-indexed
embeddings so that termination and divergence are statable.  All
definitions are structurally recursive, hence executable by kernel
reduction on concrete inputs.
-/

set_option maxHeartbeats 1000000

mutual
/-- A dynamically-typed JavaScript value: null, undefined, booleans,
(integer) numbers, strings, arrays and plain objects. -/
inductive JVal where
  | null : JVal
  | undefined : JVal
  | bool : Bool → JVal
  | num : Int → JVal
  | str : String → JVal
  | arr : JList → JVal
  | obj : JFields → JVal

/-- A JavaScript array, as a bespoke list so that the family is mutual
rather than nested (keeping structural recursion available). -/
inductive JList where
  | nil : JList
  | cons : JVal → JList → JList

/-- The fields of a JavaScript object, in property-insertion order. -/
inductive JFields where
  | nil : JFields
  | cons : String → JVal → JFields → JFields
end

/-- Conversion of an embedded JS array to an ordinary list. -/
def JList.toList : JList → List JVal
  | .nil => []
  | .cons v l => v :: JList.toList l

/-- Conversion of an ordinary list to an embedded JS array. -/
def JList.ofList : List JVal → JList
  | [] => .nil
  | v :: l => .cons v (JList.ofList l)

/-- Conversion of embedded object fields to an ordinary list of pairs. -/
def JFields.toList : JFields → List (String × JVal)
  | .nil => []
  | .cons k v f => (k, v) :: JFields.toList f

/-- JS truthiness: null, undefined, false, 0 and the empty string are
falsy; every array and object (even an empty one) is truthy. -/
def truthy : JVal → Bool
  | .null => false
  | .undefined => false
  | .bool b => b
  | .num n => n != 0
  | .str s => s ≠ ""
  | .arr _ => true
  | .obj _ => true

mutual
/-- JS ToString, as used when a value is coerced to a property key:
`String(null) = "null"`, `String(42) = "42"`, arrays join their
elements with commas (null/undefined elements become empty), plain
objects print as `[object Object]`. -/
def jsToStr : JVal → String
  | .null => "null"
  | .undefined => "undefined"
  | .bool b => if b then "true" else "false"
  | .num n => toString n
  | .str s => s
  | .arr l => jsToStrList l
  | .obj _ => "[object Object]"

/-- Array elements joined with commas, per `Array.prototype.toString`. -/
def jsToStrList : JList → String
  | .nil => ""
  | .cons v .nil => jsToStrElem v
  | .cons v l => jsToStrElem v ++ "," ++ jsToStrList l

/-- One array element under ToString: null and undefined print empty,
every other value prints as under `jsToStr`. -/
def jsToStrElem : JVal → String
  | .null => ""
  | .undefined => ""
  | .bool b => if b then "true" else "false"
  | .num n => toString n
  | .str s => s
  | .arr l => jsToStrList l
  | .obj _ => "[object Object]"
end

/-- Decimal digit prefix folded to a number. -/
def digitsVal (cs : List Char) : Nat :=
  cs.foldl (fun n c => n * 10 + (c.toNat - '0'.toNat)) 0

/-- A canonical array index (digits, no superfluous leading zero), as
JS and lodash recognise for array element access; anything else is a
plain property name. -/
def parseIndex (s : String) : Option Nat :=
  match s.data with
  | [] => none
  | c :: cs =>
    if (c :: cs).all Char.isDigit && (c = '0' → cs = []) then
      some (digitsVal (c :: cs))
    else
      none

/-- Splitting loop over characters (fuel keeps it structural; it is
instantiated with the string length, which each step shrinks). -/
def splitOnGo (sep : List Char) : Nat → List Char → List Char → List (List Char)
  | _, [], acc => [acc.reverse]
  | 0, cs, acc => [acc.reverse ++ cs]
  | n + 1, c :: cs, acc =>
    if sep.isPrefixOf (c :: cs) then
      acc.reverse :: splitOnGo sep n (List.drop (sep.length - 1) cs) []
    else
      splitOnGo sep n cs (c :: acc)

/-- JS `String.prototype.split` on a non-empty separator (the client
only ever splits on '.'). -/
def jsSplit (s sep : String) : List String :=
  match sep.data with
  | [] => [s]
  | c :: cs => (splitOnGo (c :: cs) s.data.length s.data []).map (fun t => String.mk t)

/-- Substring search loop. -/
def containsGo (pat : List Char) : Nat → List Char → Bool
  | 0, cs => pat.isPrefixOf cs
  | n + 1, cs =>
    pat.isPrefixOf cs ||
      (match cs with
       | [] => false
       | _ :: t => containsGo pat n t)

/-- Property read on embedded object fields: first matching key wins
(JS objects cannot carry duplicate keys, so the first match is the
only one in any object built by assignment). -/
def JFields.get : JFields → String → Option JVal
  | .nil, _ => none
  | .cons k v f, key => if k = key then some v else JFields.get f key

/-- JS property read `v[key]`, yielding `undefined` when absent.
Arrays answer numeric keys with their elements; strings answer numeric
keys with one-character strings; other primitives have no properties. -/
def jsGet (v : JVal) (key : String) : JVal :=
  match v with
  | .obj f => match f.get key with
    | some w => w
    | none => .undefined
  | .arr l => match parseIndex key with
    | some i => match (JList.toList l)[i]? with
      | some w => w
      | none => .undefined
    | none => .undefined
  | .str s => match parseIndex key with
    | some i => match s.data[i]? with
      | some c => .str (String.mk [c])
      | none => .undefined
    | none => .undefined
  | _ => .undefined

/-- A JS object used as a dictionary from identifier to entry, as the
client's `Record<string, any>` dictionaries are. -/
def JDict : Type := List (String × JVal)

/-- Dictionary read: first matching key (keys are unique under `dset`). -/
def dget : JDict → String → Option JVal
  | [], _ => none
  | (k, v) :: d, key => if k = key then some v else dget d key

/-- Dictionary assignment `d[key] = v`: replace the first occurrence of
the key in place, or append a fresh key, as JS property assignment does. -/
def dset : JDict → String → JVal → JDict
  | [], key, v => [(key, v)]
  | (k, w) :: d, key, v => if k = key then (k, v) :: d else (k, w) :: dset d key v

/-- The truthiness test `if (dictionary[x])` applied to a lookup whose
key is the JS string coercion of `x`. -/
def dictHit (d : JDict) (v : JVal) : Option JVal :=
  match dget d (jsToStr v) with
  | some e => if truthy e then some e else none
  | none => none

/-!
Backoff Retrier — embedding of `promiseWithRetry` (storyblok-fast-client.ts
lines 92-112).  The wrapped operation is modelled as a function from the
attempt index to that attempt's outcome.  The embedding returns the final
outcome, the list of backoff suspensions performed (in milliseconds, in
order), and the number of times the operation was invoked.
-/

/-- Loop body of `promiseWithRetry`: `i` is the next attempt index,
`delay` the current backoff delay, and the last argument the number of
attempts still allowed (`retries - attempts`).  On failure the attempt
counter advances; a suspension of the current delay happens only when
a further attempt remains, after which the delay is multiplied. -/
def pwrGo {α : Type} (op : Nat → Except String α) (mult : Nat) :
    Nat → Nat → Nat → Except String α × List Nat × Nat
  | _, _, 0 => (.error "Max retries reached", [], 0)
  | i, delay, r + 1 =>
    match op i with
    | .ok v => (.ok v, [], 1)
    | .error _ =>
      if r = 0 then
        (.error "Max retries reached", [], 1)
      else
        let t := pwrGo op mult (i + 1) (delay * mult) r
        (t.1, delay :: t.2.1, t.2.2 + 1)

/-- Embedding of `promiseWithRetry(promiseFunction, retries, delay,
delayMultiplier)`: run from attempt 0 with the initial delay. -/
def promiseWithRetry {α : Type} (op : Nat → Except String α)
    (retries delay mult : Nat) : Except String α × List Nat × Nat :=
  pwrGo op mult 0 delay retries

/-!
Bulk Scheduler — embedding of `processPromisesInBulks` (lines 57-90).
Each queued operation produces a list of values when it settles
fulfilled; `Promise.allSettled` preserves input order inside a chunk.
-/

/-- Contiguous chunking of the queue, mirroring the
`for (i = 0; i < n; i += bulkSize) slice(i, i + bulkSize)` loop.  The
first argument is fuel (instantiated with the list length) keeping the
recursion structural; each step consumes at least the head, so the
fuel never runs out on the instantiating call.  The JS loop diverges
when `bulkSize = 0`; theorems about the scheduler therefore assume a
positive bulk size. -/
def bulkChunksGo {α : Type} (bs : Nat) : Nat → List α → List (List α)
  | _, [] => []
  | 0, l => [l]
  | n + 1, x :: xs => (x :: xs.take (bs - 1)) :: bulkChunksGo bs n (xs.drop (bs - 1))

/-- The queue split into contiguous chunks of `bs`. -/
def bulkChunks {α : Type} (bs : Nat) (l : List α) : List (List α) :=
  bulkChunksGo bs l.length l

/-- Settling one chunk: every member runs through the Retrier; a
fulfilled member spreads its list of values onto the results, a
rejected member is logged (counted) and contributes nothing. -/
def settleChunk (mr ib dm : Nat) (chunk : List (Nat → Except String (List JVal)))
    (acc : List JVal × Nat) : List JVal × Nat :=
  chunk.foldl
    (fun a op =>
      match (promiseWithRetry op mr ib dm).1 with
      | .ok v => (a.1 ++ v, a.2)
      | .error _ => (a.1, a.2 + 1))
    acc

/-- Embedding of `processPromisesInBulks(promisesFuncs, bulkSize,
maxRetries, initialBackoff, delayMultiplier)`: chunks run in sequence,
results of fulfilled members are concatenated in order, and the number
of logged failures is returned alongside. -/
def processPromisesInBulks (ops : List (Nat → Except String (List JVal)))
    (bs mr ib dm : Nat) : List JVal × Nat :=
  (bulkChunks bs ops).foldl (fun acc chunk => settleChunk mr ib dm chunk acc) ([], 0)

/-!
Dictionary Builder — embedding of `createReferencedStoriesDictionary`
(lines 114-121): a single fold assigning `acc[story.uuid] = story`.
-/

/-- Embedding of `createReferencedStoriesDictionary(stories)`. -/
def createReferencedStoriesDictionary (stories : List JVal) : JDict :=
  stories.foldl (fun acc story => dset acc (jsToStr (jsGet story "uuid")) story) []

/-- Helper: under an always-failing operation the retry loop reaches
exhaustion, sleeping the geometric backoff sequence and consuming every
remaining attempt. -/
theorem pwrGo_allFail {α : Type} (op : Nat → Except String α) (mult : Nat)
    (h : ∀ j, ∃ e, op j = .error e) :
    ∀ (r i delay : Nat), pwrGo op mult i delay r =
      (.error "Max retries reached",
       (List.range (r - 1)).map (fun k => delay * mult ^ k), r) := by
  intro r
  induction r with
  | zero => intro i delay; simp [pwrGo]
  | succ r ih =>
    intro i delay
    obtain ⟨e, he⟩ := h i
    by_cases hr : r = 0
    · subst hr; simp [pwrGo, he]
    · obtain ⟨r2, rfl⟩ : ∃ r2, r = r2 + 1 := ⟨r - 1, by omega⟩
      have hd : pwrGo op mult i delay (r2 + 1 + 1) =
          ((pwrGo op mult (i + 1) (delay * mult) (r2 + 1)).1,
           delay :: (pwrGo op mult (i + 1) (delay * mult) (r2 + 1)).2.1,
           (pwrGo op mult (i + 1) (delay * mult) (r2 + 1)).2.2 + 1) := by
        conv_lhs => rw [pwrGo]
        rw [he]
        rfl
      rw [hd, ih]
      refine Prod.ext rfl (Prod.ext ?_ rfl)
      simp only [Nat.add_sub_cancel, List.range_succ_eq_map, List.map_cons,
        List.map_map, pow_zero, Nat.mul_one, List.cons.injEq, true_and]
      refine List.map_congr_left ?_
      intro k _
      simp only [Function.comp, Nat.succ_eq_add_one, pow_succ]
      ring

/-- Helper: the retry loop never invokes the operation more times than
the remaining attempt budget. -/
theorem pwrGo_count_le {α : Type} (op : Nat → Except String α) (mult : Nat) :
    ∀ (r i delay : Nat), (pwrGo op mult i delay r).2.2 ≤ r := by
  intro r
  induction r with
  | zero => intro i delay; simp [pwrGo]
  | succ r ih =>
    intro i delay
    simp only [pwrGo]
    cases hop : op i with
    | ok v => simp
    | error e =>
      by_cases hr : r = 0
      · subst hr; simp
      · simp only [if_neg hr]
        have := ih (i + 1) (delay * mult)
        simpa using Nat.add_le_add_right this 1

/-- C6: an operation that fails on every invocation is invoked exactly
`retries` times by `promiseWithRetry`, the suspensions between
consecutive attempts are `delay * mult ^ 0, …, delay * mult ^ (retries - 2)`
(none after the final attempt), and the run ends in the single
exhaustion error "Max retries reached", which discards the underlying
causes. -/
theorem promiseWithRetry_exhaustion {α : Type} (op : Nat → Except String α)
    (retries delay mult : Nat) (h : ∀ j, ∃ e, op j = .error e) :
    promiseWithRetry op retries delay mult =
      (.error "Max retries reached",
       (List.range (retries - 1)).map (fun k => delay * mult ^ k), retries) :=
  pwrGo_allFail op mult h retries 0 delay

/-- An operation that fails on every invocation, for concrete runs. -/
def alwaysFailingOp : Nat → Except String Unit := fun _ => .error "boom"

/-- Witness for C6 at the spec's concrete figures: three attempts at
initial delay 100 and multiplier 2 sleep 100ms then 200ms and exhaust. -/
theorem promiseWithRetry_exhaustion_witness :
    (∀ j, ∃ e, alwaysFailingOp j = .error e) ∧
    promiseWithRetry alwaysFailingOp 3 100 2 =
      (.error "Max retries reached", [100, 200], 3) := by
  refine ⟨fun j => ⟨"boom", rfl⟩, ?_⟩
  rw [promiseWithRetry_exhaustion alwaysFailingOp 3 100 2 (fun j => ⟨"boom", rfl⟩)]
  rfl

/-- C10: with an attempt budget of zero the Retrier raises the
exhaustion error at once, never invoking the operation, and in general
the number of invocations never exceeds the budget. -/
theorem promiseWithRetry_zero_budget :
    (∀ (α : Type) (op : Nat → Except String α) (delay mult : Nat),
        promiseWithRetry op 0 delay mult = (.error "Max retries reached", [], 0)) ∧
    (∀ (α : Type) (op : Nat → Except String α) (retries delay mult : Nat),
        (promiseWithRetry op retries delay mult).2.2 ≤ retries) := by
  constructor
  · intro α op delay mult; rfl
  · intro α op retries delay mult
    exact pwrGo_count_le op mult retries 0 delay

/-- Helper: reading a key after an assignment sees the assigned value
exactly when the keys match. -/
theorem dget_dset (d : JDict) (k : String) (v : JVal) (key : String) :
    dget (dset d k v) key = if k = key then some v else dget d key := by
  induction d with
  | nil =>
    by_cases h : k = key <;> simp [dset, dget, h]
  | cons p d ih =>
    obtain ⟨k2, w⟩ := p
    by_cases h2 : k2 = k
    · subst h2
      by_cases h : k2 = key <;> simp [dset, dget, h]
    · by_cases h : k2 = key
      · subst h
        have : ¬k = k2 := fun hk => h2 hk.symm
        simp [dset, dget, h2, this]
      · simp [dset, dget, h2, h, ih]

/-- Helper: the last element of a list with a new head. -/
theorem getLast?_cons_or {α : Type} (a : α) (l : List α) :
    (a :: l).getLast? = l.getLast?.or (some a) := by
  induction l generalizing a with
  | nil => rfl
  | cons b t ih =>
    rw [List.getLast?_cons_cons, ih b]
    cases h : (t.getLast?).or (some b) with
    | none => simp at h
    | some c => simp [h]

/-- Helper: folding dictionary assignments over a story list realises
last-write-wins lookup relative to the starting accumulator. -/
theorem createDict_fold_lookup (stories : List JVal) (acc : JDict) (key : String) :
    dget (stories.foldl (fun a story => dset a (jsToStr (jsGet story "uuid")) story) acc) key =
      ((stories.filter (fun s => jsToStr (jsGet s "uuid") == key)).getLast?).or (dget acc key) := by
  induction stories generalizing acc with
  | nil => simp
  | cons s rest ih =>
    rw [List.foldl_cons, ih]
    by_cases h : jsToStr (jsGet s "uuid") = key
    · rw [List.filter_cons_of_pos (by simpa using h), getLast?_cons_or,
        Option.or_assoc, dget_dset, if_pos h]
      rfl
    · rw [List.filter_cons_of_neg (by simpa using h), dget_dset, if_neg h]

/-- C9: the Dictionary Builder maps every identifier key to the last
entry of the story list whose identifier coerces to that key
(last-write-wins in fetch order); the stored value is the raw entry
itself, and nothing is resolved while building. -/
theorem createReferencedStoriesDictionary_lastWriteWins
    (stories : List JVal) (key : String) :
    dget (createReferencedStoriesDictionary stories) key =
      (stories.filter (fun s => jsToStr (jsGet s "uuid") == key)).getLast? := by
  rw [createReferencedStoriesDictionary, createDict_fold_lookup]
  cases h : (stories.filter (fun s => jsToStr (jsGet s "uuid") == key)).getLast? <;>
    simp [dget]

/-- Helper: chunking loses no member and keeps order, given enough fuel. -/
theorem bulkChunksGo_flatten {α : Type} (bs : Nat) :
    ∀ (n : Nat) (l : List α), l.length ≤ n → (bulkChunksGo bs n l).flatten = l := by
  intro n
  induction n with
  | zero =>
    intro l hl
    rw [List.length_eq_zero.mp (Nat.le_zero.mp hl)]
    rfl
  | succ n ih =>
    intro l hl
    cases l with
    | nil => rfl
    | cons x xs =>
      rw [bulkChunksGo, List.flatten_cons, ih (xs.drop (bs - 1)) ?_, List.cons_append,
        List.take_append_drop]
      calc (xs.drop (bs - 1)).length ≤ xs.length := by
            simp [List.length_drop]
        _ ≤ n := by simpa using hl

/-- Helper: the chunks of the queue concatenate back to the queue. -/
theorem bulkChunks_flatten {α : Type} (bs : Nat) (l : List α) :
    (bulkChunks bs l).flatten = l :=
  bulkChunksGo_flatten bs l.length l le_rfl

/-- Helper: folding the settle step over the whole queue concatenates
the successes in order and counts the exhausted members. -/
theorem settle_foldl (mr ib dm : Nat) :
    ∀ (ops : List (Nat → Except String (List JVal))) (acc : List JVal × Nat),
      ops.foldl
        (fun a op =>
          match (promiseWithRetry op mr ib dm).1 with
          | .ok v => (a.1 ++ v, a.2)
          | .error _ => (a.1, a.2 + 1))
        acc =
      (acc.1 ++ (ops.filterMap (fun op => ((promiseWithRetry op mr ib dm).1).toOption)).flatten,
       acc.2 + ops.countP (fun op => ((promiseWithRetry op mr ib dm).1).toOption.isNone)) := by
  intro ops
  induction ops with
  | nil => intro acc; simp
  | cons op rest ih =>
    intro acc
    rw [List.foldl_cons, ih, List.filterMap_cons, List.countP_cons]
    cases hop : (promiseWithRetry op mr ib dm).1 with
    | ok v =>
      simp only [hop, Except.toOption, List.flatten_cons, Option.isNone_some,
        List.append_assoc]
      refine Prod.ext rfl ?_
      simp
    | error e =>
      simp only [hop, Except.toOption, Option.isNone_none, List.flatten]
      refine Prod.ext rfl ?_
      simp only [if_pos trivial]
      omega

/-- C7: the Bulk Scheduler returns exactly the concatenation, in queue
order (hence with chunk order preserved), of the value lists of the
members that succeed within the retry budget; a member that exhausts
its retries contributes nothing, is logged exactly once, and never
aborts the batch. -/
theorem processPromisesInBulks_partial_failure
    (ops : List (Nat → Except String (List JVal))) (bs mr ib dm : Nat)
    (hbs : 0 < bs) :
    processPromisesInBulks ops bs mr ib dm =
      ((ops.filterMap (fun op => ((promiseWithRetry op mr ib dm).1).toOption)).flatten,
       ops.countP (fun op => ((promiseWithRetry op mr ib dm).1).toOption.isNone)) := by
  rw [processPromisesInBulks]
  have hfold : (bulkChunks bs ops).foldl (fun acc chunk => settleChunk mr ib dm chunk acc) ([], 0) =
      ((bulkChunks bs ops).flatten).foldl
        (fun a op =>
          match (promiseWithRetry op mr ib dm).1 with
          | .ok v => (a.1 ++ v, a.2)
          | .error _ => (a.1, a.2 + 1))
        ([], 0) := by
    rw [List.foldl_flatten]
    rfl
  rw [hfold, bulkChunks_flatten, settle_foldl]
  simp

/-- Five paginated fetch operations of which the third permanently
fails with a transport error: the concrete scenario of the bulk
partial-failure property. -/
def bulkOpsSample : List (Nat → Except String (List JVal)) :=
  [fun _ => .ok [.str "p1-story"],
   fun _ => .ok [.str "p2-story"],
   fun _ => .error "HTTP 500",
   fun _ => .ok [.str "p4-story"],
   fun _ => .ok [.str "p5-story"]]

/-- Witness for C7: with page 3 of 5 permanently failing, the batch
returns the entries of pages 1, 2, 4 and 5 in order and logs exactly
one failure. -/
theorem processPromisesInBulks_partial_failure_witness :
    0 < 2 ∧
    processPromisesInBulks bulkOpsSample 2 5 1000 2 =
      ([.str "p1-story", .str "p2-story", .str "p4-story", .str "p5-story"], 1) := by
  refine ⟨by decide, ?_⟩
  rw [processPromisesInBulks_partial_failure bulkOpsSample 2 5 1000 2 (by decide)]
  rfl

/-!
Paginated Fetcher — embedding of `fetchStories` (lines 258-291) given
the transport's observable inputs: the `total` response header of the
first page, the first page's story list, and the story list served for
every later page.  `fetchAdditionalStories` (lines 243-256) returns
`data.stories ?? []` unchanged (`stories.length ? stories : []` is the
identity), so later pages appear directly as lists.
-/

/-- JS `parseInt` on the strings the client reads from the `total`
header: leading whitespace is skipped, an optional sign is honoured,
and the longest decimal digit prefix is parsed; no digits means NaN
(`none`).  (The hexadecimal `0x` form JS also accepts is out of scope:
the header is a decimal count.) -/
def jsParseInt (s : String) : Option Int :=
  let cs := s.data.dropWhile (fun c => c.isWhitespace)
  let core := fun (ds : List Char) =>
    let d := ds.takeWhile (fun c => c.isDigit)
    if d.isEmpty then (none : Option Nat) else some (digitsVal d)
  match cs with
  | '-' :: rest => (core rest).map (fun n => -(n : Int))
  | '+' :: rest => (core rest).map (fun n => (n : Int))
  | rest => (core rest).map (fun n => (n : Int))

/-- `Math.ceil(a / b)` for an integer numerator and positive integer
denominator, via floor division of the negation. -/
def jsMathCeilDiv (a : Int) (b : Nat) : Int :=
  -((-a) / (b : Int))

/-- `Array.prototype.flat()` at depth one: arrays are spliced, other
values kept. -/
def jsFlatOnce : List JVal → List JVal
  | [] => []
  | .arr l :: rest => JList.toList l ++ jsFlatOnce rest
  | v :: rest => v :: jsFlatOnce rest

/-- Whether a value is a JS array (what `flat` splices). -/
def isJArr : JVal → Bool
  | .arr _ => true
  | _ => false

/-- The `total` count read from the first response:
`parseInt(headers.get('total') ?? '0') || 0`, i.e. an absent header
reads "0" and an unparsable one falls back to 0. -/
def fetchStoriesTotal (headerTotal : Option String) : Int :=
  match jsParseInt (headerTotal.getD "0") with
  | some n => n
  | none => 0

/-- `totalPages = Math.ceil(total / per_page)`. -/
def fetchStoriesTotalPages (headerTotal : Option String) (per_page : Nat) : Int :=
  jsMathCeilDiv (fetchStoriesTotal headerTotal) per_page

/-- The additional page numbers requested:
`for (page = 2; page <= totalPages; page++)`. -/
def fetchStoriesPageRequests (headerTotal : Option String) (per_page : Nat) : List Nat :=
  List.range' 2 (fetchStoriesTotalPages headerTotal per_page - 1).toNat

/-- Embedding of `fetchStories`: page 1's stories first, then the
additional pages fetched through the Bulk Scheduler at bulk size 20
(retry defaults 5/1000ms/x2), flattened one level and concatenated. -/
def fetchStories (headerTotal : Option String) (page1 : List JVal)
    (pageFetch : Nat → List JVal) (per_page : Nat) : List JVal :=
  let ops := (fetchStoriesPageRequests headerTotal per_page).map
    (fun p => (fun _ => Except.ok (pageFetch p) : Nat → Except String (List JVal)))
  page1 ++ jsFlatOnce (processPromisesInBulks ops 20 5 1000 2).1

/-- Helper: the number of chunks at the fixed page size 25 is the
ceiling of the length over 25. -/
theorem bulkChunksGo25_length :
    ∀ (n : Nat) (l : List JVal), l.length ≤ n →
      (bulkChunksGo 25 n l).length = (l.length + 24) / 25 := by
  intro n
  induction n with
  | zero =>
    intro l hl
    rw [List.length_eq_zero.mp (Nat.le_zero.mp hl)]
    rfl
  | succ n ih =>
    intro l hl
    cases l with
    | nil => rfl
    | cons x xs =>
      rw [bulkChunksGo, List.length_cons, ih (xs.drop 24) ?_]
      · rw [List.length_drop, List.length_cons]
        omega
      · rw [List.length_drop]
        simp at hl
        omega

/-- Helper: reading a chunk list at offset indices reconstructs its
tail from any starting index. -/
theorem map_getD_range (c : List (List JVal)) :
    ∀ (k : Nat), (List.range (c.length - k)).map (fun i => c.getD (k + i) []) = c.drop k := by
  induction c with
  | nil => intro k; simp
  | cons x xs ih =>
    intro k
    cases k with
    | zero =>
      rw [List.length_cons, Nat.sub_zero, List.range_succ_eq_map, List.map_cons,
        List.map_map, List.drop_zero]
      have h0 : (x :: xs).getD (0 + 0) [] = x := rfl
      rw [h0]
      congr 1
      have h1 := ih 0
      rw [Nat.sub_zero, List.drop_zero] at h1
      conv_rhs => rw [← h1]
      refine List.map_congr_left ?_
      intro i _
      simp [Function.comp, Nat.succ_eq_add_one, List.getD_cons_succ]
    | succ k =>
      rw [List.length_cons, Nat.succ_sub_succ, List.drop_succ_cons, ← ih k]
      refine List.map_congr_left ?_
      intro i _
      have : k + 1 + i = (k + i) + 1 := by omega
      rw [this, List.getD_cons_succ]

/-- Helper: a batch whose members all succeed immediately returns every
value list in order with nothing logged (one attempt suffices when the
budget is positive). -/
theorem processPromisesInBulks_all_ok (vals : List (List JVal)) (bs ib dm : Nat) :
    processPromisesInBulks
        (vals.map (fun v => (fun _ => Except.ok v : Nat → Except String (List JVal))))
        bs 5 ib dm = (vals.flatten, 0) := by
  rw [processPromisesInBulks]
  rw [show (fun acc chunk => settleChunk 5 ib dm chunk acc) =
      (fun (acc : List JVal × Nat) chunk => chunk.foldl
        (fun a op =>
          match (promiseWithRetry op 5 ib dm).1 with
          | .ok v => (a.1 ++ v, a.2)
          | .error _ => (a.1, a.2 + 1))
        acc) from rfl]
  rw [← List.foldl_flatten, bulkChunks_flatten, settle_foldl]
  have hok : ∀ (v : List JVal),
      (promiseWithRetry (fun _ => Except.ok v : Nat → Except String (List JVal)) 5 ib dm).1 =
        .ok v := fun v => rfl
  rw [List.filterMap_map, List.countP_map]
  have h1 : (vals.filterMap
      ((fun op => ((promiseWithRetry op 5 ib dm).1).toOption) ∘
        (fun v => (fun _ => Except.ok v : Nat → Except String (List JVal))))) = vals := by
    rw [show ((fun op => ((promiseWithRetry op 5 ib dm).1).toOption) ∘
        (fun v => (fun _ => Except.ok v : Nat → Except String (List JVal)))) =
        (fun v => some v) from rfl]
    simp
  have h2 : (vals.countP
      ((fun op => ((promiseWithRetry op 5 ib dm).1).toOption.isNone) ∘
        (fun v => (fun _ => Except.ok v : Nat → Except String (List JVal))))) = 0 := by
    rw [show ((fun op => ((promiseWithRetry op 5 ib dm).1).toOption.isNone) ∘
        (fun v => (fun _ => Except.ok v : Nat → Except String (List JVal)))) =
        (fun _ => false) from rfl]
    simp
  rw [h1, h2]
  simp

/-- Helper: depth-one flattening fixes a list containing no arrays. -/
theorem jsFlatOnce_id : ∀ (l : List JVal), (∀ v ∈ l, isJArr v = false) → jsFlatOnce l = l := by
  intro l
  induction l with
  | nil => intro _; rfl
  | cons v rest ih =>
    intro h
    have hv := h v (by simp)
    have hrest := ih (fun w hw => h w (by simp [hw]))
    cases v <;> simp [isJArr] at hv <;> simp [jsFlatOnce, hrest]

/-- C8: the Paginated Fetcher computes `totalPages = ceil(total/25)`
from the first response's total header; an absent or unparsable header
yields no additional page requests and returns just page 1; and for a
collection of `N` entries split across `ceil(N/25)` pages with no
failures it returns exactly the `N` entries with page 1's entries
first. -/
theorem fetchStories_pagination :
    (∀ (page1 : List JVal) (f : Nat → List JVal) (per : Nat),
        fetchStoriesPageRequests none per = [] ∧ fetchStories none page1 f per = page1)
    ∧ (∀ (s : String) (page1 : List JVal) (f : Nat → List JVal) (per : Nat),
        jsParseInt s = none →
        fetchStoriesPageRequests (some s) per = [] ∧ fetchStories (some s) page1 f per = page1)
    ∧ (∀ (l : List JVal) (s : String),
        jsParseInt s = some (l.length : Int) →
        (∀ v ∈ l, isJArr v = false) →
        fetchStoriesTotalPages (some s) 25 = ((bulkChunks 25 l).length : Int) ∧
        fetchStories (some s) ((bulkChunks 25 l).getD 0 [])
          (fun p => (bulkChunks 25 l).getD (p - 1) []) 25 = l) := by
  have hbulk0 : processPromisesInBulks [] 20 5 1000 2 = ([], 0) := rfl
  refine ⟨?_, ?_, ?_⟩
  · intro page1 f per
    have htot : fetchStoriesTotal none = 0 := rfl
    have htp : fetchStoriesTotalPages none per = 0 := by
      rw [fetchStoriesTotalPages, htot, jsMathCeilDiv]
      simp
    have hreq : fetchStoriesPageRequests none per = [] := by
      rw [fetchStoriesPageRequests, htp]
      rfl
    refine ⟨hreq, ?_⟩
    rw [fetchStories, hreq]
    simp only [List.map_nil, hbulk0]
    simp [jsFlatOnce]
  · intro s page1 f per hs
    have htot : fetchStoriesTotal (some s) = 0 := by
      rw [fetchStoriesTotal]
      simp [hs]
    have htp : fetchStoriesTotalPages (some s) per = 0 := by
      rw [fetchStoriesTotalPages, htot, jsMathCeilDiv]
      simp
    have hreq : fetchStoriesPageRequests (some s) per = [] := by
      rw [fetchStoriesPageRequests, htp]
      rfl
    refine ⟨hreq, ?_⟩
    rw [fetchStories, hreq]
    simp only [List.map_nil, hbulk0]
    simp [jsFlatOnce]
  · intro l s hs hnoarr
    have htot : fetchStoriesTotal (some s) = (l.length : Int) := by
      rw [fetchStoriesTotal]
      simp [hs]
    have hlen : (bulkChunks 25 l).length = (l.length + 24) / 25 :=
      bulkChunksGo25_length l.length l le_rfl
    have htp : fetchStoriesTotalPages (some s) 25 = ((bulkChunks 25 l).length : Int) := by
      rw [fetchStoriesTotalPages, htot, jsMathCeilDiv, hlen]
      omega
    refine ⟨htp, ?_⟩
    have hcnt : (fetchStoriesTotalPages (some s) 25 - 1).toNat = (bulkChunks 25 l).length - 1 := by
      rw [htp]
      omega
    have hreq : fetchStoriesPageRequests (some s) 25 =
        List.range' 2 ((bulkChunks 25 l).length - 1) := by
      rw [fetchStoriesPageRequests, hcnt]
    have hpages : (List.range' 2 ((bulkChunks 25 l).length - 1)).map
        (fun p => (bulkChunks 25 l).getD (p - 1) []) = (bulkChunks 25 l).drop 1 := by
      rw [List.range'_eq_map_range, List.map_map, ← map_getD_range (bulkChunks 25 l) 1]
      refine List.map_congr_left ?_
      intro i _
      have harg : 2 + i - 1 = 1 + i := by omega
      simp only [Function.comp, harg]
    rw [fetchStories, hreq]
    have hops : (List.range' 2 ((bulkChunks 25 l).length - 1)).map
        (fun p => (fun _ => Except.ok ((bulkChunks 25 l).getD (p - 1) []) :
          Nat → Except String (List JVal))) =
        ((bulkChunks 25 l).drop 1).map
          (fun v => (fun _ => Except.ok v : Nat → Except String (List JVal))) := by
      rw [← hpages, List.map_map]
      rfl
    rw [hops, processPromisesInBulks_all_ok]
    have hmem : ∀ v ∈ ((bulkChunks 25 l).drop 1).flatten, isJArr v = false := by
      intro v hv
      obtain ⟨li, hli, hvli⟩ := List.mem_flatten.mp hv
      refine hnoarr v ?_
      rw [← bulkChunks_flatten 25 l]
      exact List.mem_flatten.mpr ⟨li, List.drop_subset 1 _ hli, hvli⟩
    rw [jsFlatOnce_id _ hmem]
    have hfl := bulkChunks_flatten 25 l
    revert hfl
    generalize bulkChunks 25 l = c
    intro hfl
    rw [← hfl]
    cases c with
    | nil => simp
    | cons c0 cr => simp

/-- Thirty entries, filling page 1 (25 stories) and page 2 (5). -/
def sampleStories30 : List JVal := List.replicate 30 (JVal.str "story")

/-- Witness for C8: 30 entries split across two pages of 25 are all
returned, page 1 first. -/
theorem fetchStories_pagination_witness :
    jsParseInt "30" = some ((sampleStories30.length : Int)) ∧
    (∀ v ∈ sampleStories30, isJArr v = false) ∧
    fetchStories (some "30") ((bulkChunks 25 sampleStories30).getD 0 [])
      (fun p => (bulkChunks 25 sampleStories30).getD (p - 1) []) 25 = sampleStories30 := by
  refine ⟨rfl, by decide, ?_⟩
  exact (fetchStories_pagination.2.2 sampleStories30 "30" rfl (by decide)).2

/-!
Outer market retry — embedding of `fetchMarketStories` (lines 293-322).
One whole-market attempt is a call of `fetchStories` with the same
parameters each time (page size 25, same language and cache version, so
a retry restarts the market from page 1); the attempt is modelled by
its outcome: a story list, or the value it throws.  The recognition
test of the source is the strict equality `err === 'Too Many Requests'`
against the string primitive.  The loop runs `retryAttempts` times
(`parseInt(process.env.SB_DATALAYER_RETRY ?? '5')`, default 5); a
recognized signal logs and sleeps 10000 ms before the next attempt, any
other thrown value is re-raised (wrapped) after logging, and falling
out of the loop raises the fatal maximum-retry error.
-/

/-- The outcome of the embedded `fetchMarketStories` run. -/
inductive MarketResult where
  | success : List JVal → MarketResult
  | fatal : MarketResult
  | exhausted : MarketResult

/-- The recognition test `err === 'Too Many Requests'`: strict equality
holds only for that very string primitive. -/
def isTooManyRequests : JVal → Bool
  | .str s => s == "Too Many Requests"
  | _ => false

/-- Loop body of `fetchMarketStories`: `i` is the next attempt index
and the second argument the attempts remaining.  Returns the outcome,
the sleeps performed, and the number of attempts consumed. -/
def fmsGo (att : Nat → Except JVal (List JVal)) :
    Nat → Nat → MarketResult × List Nat × Nat
  | _, 0 => (.exhausted, [], 0)
  | i, r + 1 =>
    match att i with
    | .ok s => (.success s, [], 1)
    | .error e =>
      if isTooManyRequests e then
        let t := fmsGo att (i + 1) r
        (t.1, 10000 :: t.2.1, t.2.2 + 1)
      else
        (.fatal, [], 1)

/-- Embedding of `fetchMarketStories`, from attempt 0. -/
def fetchMarketStories (att : Nat → Except JVal (List JVal))
    (retryAttempts : Nat) : MarketResult × List Nat × Nat :=
  fmsGo att 0 retryAttempts

/-- Helper: a run opening with `j` recognized too-many-requests
failures sleeps 10 seconds after each of them and continues from
attempt `j` with the budget reduced by `j`. -/
theorem fmsGo_skip_tmr (att : Nat → Except JVal (List JVal)) :
    ∀ (j i r : Nat), j ≤ r →
      (∀ k, k < j → att (i + k) = .error (.str "Too Many Requests")) →
      fmsGo att i r =
        ((fmsGo att (i + j) (r - j)).1,
         List.replicate j 10000 ++ (fmsGo att (i + j) (r - j)).2.1,
         (fmsGo att (i + j) (r - j)).2.2 + j) := by
  intro j
  induction j with
  | zero => intro i r _ _; simp
  | succ j ih =>
    intro i r hjr h
    obtain ⟨r2, rfl⟩ : ∃ r2, r = r2 + 1 := ⟨r - 1, by omega⟩
    have h0 : att i = .error (.str "Too Many Requests") := by
      have := h 0 (by omega)
      simpa using this
    have hd : fmsGo att i (r2 + 1) =
        ((fmsGo att (i + 1) r2).1, 10000 :: (fmsGo att (i + 1) r2).2.1,
         (fmsGo att (i + 1) r2).2.2 + 1) := by
      conv_lhs => rw [fmsGo]
      rw [h0]
      rfl
    have hnext : ∀ k, k < j → att (i + 1 + k) = .error (.str "Too Many Requests") := by
      intro k hk
      have := h (k + 1) (by omega)
      rw [← this]
      congr 1
      omega
    rw [hd, ih (i + 1) r2 (by omega) hnext]
    have he1 : i + (j + 1) = i + 1 + j := by omega
    have he2 : r2 + 1 - (j + 1) = r2 - j := by omega
    rw [he1, he2, List.replicate_succ]
    refine Prod.ext rfl (Prod.ext rfl ?_)
    simp only []
    omega

/-- C2: in `fetchMarketStories`, every recognized too-many-requests
failure pauses a fixed 10 seconds and consumes one of the configured
attempts before the whole market is refetched; a run whose attempts all
fail recognized exhausts the budget and raises the fatal
maximum-retry error; and the first failure that is not the recognized
signal is fatal immediately, re-raised after logging with no further
sleeping or retrying. -/
theorem fetchMarketStories_retry :
    (∀ (att : Nat → Except JVal (List JVal)) (R : Nat),
        (∀ i, i < R → att i = .error (.str "Too Many Requests")) →
        fetchMarketStories att R = (.exhausted, List.replicate R 10000, R))
    ∧ (∀ (att : Nat → Except JVal (List JVal)) (R j : Nat) (e : JVal),
        j < R →
        (∀ i, i < j → att i = .error (.str "Too Many Requests")) →
        att j = .error e →
        isTooManyRequests e = false →
        fetchMarketStories att R = (.fatal, List.replicate j 10000, j + 1))
    ∧ (∀ (att : Nat → Except JVal (List JVal)) (R j : Nat) (s : List JVal),
        j < R →
        (∀ i, i < j → att i = .error (.str "Too Many Requests")) →
        att j = .ok s →
        fetchMarketStories att R = (.success s, List.replicate j 10000, j + 1)) := by
  refine ⟨?_, ?_, ?_⟩
  · intro att R h
    rw [fetchMarketStories, fmsGo_skip_tmr att R 0 R le_rfl (fun k hk => by simpa using h k hk)]
    simp [fmsGo]
  · intro att R j e hjR h hj htmr
    rw [fetchMarketStories,
      fmsGo_skip_tmr att j 0 R (by omega) (fun k hk => by simpa using h k hk)]
    obtain ⟨r2, hr2⟩ : ∃ r2, R - j = r2 + 1 := ⟨R - j - 1, by omega⟩
    rw [hr2]
    have hd : fmsGo att (0 + j) (r2 + 1) = (.fatal, [], 1) := by
      conv_lhs => rw [fmsGo]
      have : att (0 + j) = .error e := by simpa using hj
      rw [this]
      simp [htmr]
    rw [hd]
    simp [Nat.add_comm]
  · intro att R j s hjR h hj
    rw [fetchMarketStories,
      fmsGo_skip_tmr att j 0 R (by omega) (fun k hk => by simpa using h k hk)]
    obtain ⟨r2, hr2⟩ : ∃ r2, R - j = r2 + 1 := ⟨R - j - 1, by omega⟩
    rw [hr2]
    have hd : fmsGo att (0 + j) (r2 + 1) = (.success s, [], 1) := by
      conv_lhs => rw [fmsGo]
      have : att (0 + j) = .ok s := by simpa using hj
      rw [this]
    rw [hd]
    simp [Nat.add_comm]

/-- Attempts that hit the rate limit twice and then fail with a
different error. -/
def marketAttemptsSample : Nat → Except JVal (List JVal) :=
  fun i => if i < 2 then .error (.str "Too Many Requests") else .error (.str "HTTP 500")

/-- Witness for C2: five attempts all rate-limited sleep 10 s each and
exhaust; two rate limits followed by a different error are fatal at the
third attempt after two 10-second pauses. -/
theorem fetchMarketStories_retry_witness :
    fetchMarketStories (fun _ => .error (.str "Too Many Requests")) 5 =
      (.exhausted, [10000, 10000, 10000, 10000, 10000], 5) ∧
    fetchMarketStories marketAttemptsSample 5 = (.fatal, [10000, 10000], 3) := by
  constructor
  · rw [fetchMarketStories_retry.1 (fun _ => .error (.str "Too Many Requests")) 5
      (fun i _ => rfl)]
    rfl
  · rw [fetchMarketStories_retry.2.1 marketAttemptsSample 5 2 (.str "HTTP 500")
      (by omega) (fun i hi => by simp [marketAttemptsSample, hi]) rfl rfl]
    rfl

/-!
Whole-tree Relation Resolver, plain variant — fuel-indexed embedding of
`resolveRelationsForStory` (storyblok-fast-client.ts lines 123-147, no
key guard) and of the near-duplicate variant in the sibling client file
(lines 197-221), which differs in exactly one point: its entry loop
skips keys named 'uuid' and '_uid'.  The two are embedded as one family
parameterised by that guard.  The JS function mutates the story in
place; the embedding returns the value each field ends up holding (a
substituted field holds the dictionary entry, resolved in place by the
recursive call).  Fuel decreases on every call, and `none` means the
fuel ran out: the source function terminates on an input exactly when
some fuel suffices.  Primitive inputs have no object entries and are
returned unchanged.
-/

/-- The reserved identifier keys of the guarded variant. -/
def reservedKey (k : String) : Bool := k == "uuid" || k == "_uid"

mutual
/-- One call of `resolveRelationsForStory(story, dictionary)`: walk the
entries of the story (an object's fields, or an array's elements under
numeric keys, which are never reserved). -/
def rrfsStory (guard : Bool) : Nat → JDict → JVal → Option JVal
  | 0, _, _ => none
  | n + 1, d, .obj f => (rrfsFields guard n d f).map .obj
  | n + 1, d, .arr l => (rrfsArrStory guard n d l).map .arr
  | _ + 1, _, v => some v

/-- The `for ([k, v] of Object.entries(story))` loop over object
fields; under the guard, reserved keys keep their value untouched. -/
def rrfsFields (guard : Bool) : Nat → JDict → JFields → Option JFields
  | 0, _, _ => none
  | _ + 1, _, .nil => some .nil
  | n + 1, d, .cons k v f =>
    if guard && reservedKey k then do
      let rest ← rrfsFields guard n d f
      pure (.cons k v rest)
    else do
      let w ← rrfsValue guard n d v
      let rest ← rrfsFields guard n d f
      pure (.cons k w rest)

/-- The same entry loop when the walked value is an array. -/
def rrfsArrStory (guard : Bool) : Nat → JDict → JList → Option JList
  | 0, _, _ => none
  | _ + 1, _, .nil => some .nil
  | n + 1, d, .cons v l => do
    let w ← rrfsValue guard n d v
    let rest ← rrfsArrStory guard n d l
    pure (.cons w rest)

/-- The loop body for one entry value: null is skipped; an array is
mapped item-wise; an object recurses; any other value whose dictionary
lookup is truthy is replaced by the entry, which the source then
resolves in place by a further recursive call. -/
def rrfsValue (guard : Bool) : Nat → JDict → JVal → Option JVal
  | 0, _, _ => none
  | _ + 1, _, .null => some .null
  | n + 1, d, .arr items => (rrfsItems guard n d items).map .arr
  | n + 1, d, .obj f => rrfsStory guard n d (.obj f)
  | n + 1, d, v =>
    match dictHit d v with
    | some e => rrfsStory guard n d e
    | none => some v

/-- `v.map(item => …)` over an array-valued entry. -/
def rrfsItems (guard : Bool) : Nat → JDict → JList → Option JList
  | 0, _, _ => none
  | _ + 1, _, .nil => some .nil
  | n + 1, d, .cons item l => do
    let w ← rrfsItem guard n d item
    let rest ← rrfsItems guard n d l
    pure (.cons w rest)

/-- One mapped item: a non-null object (arrays included) recurses; a
scalar with a truthy dictionary hit becomes the entry, with no
recursion into it; anything else is kept. -/
def rrfsItem (guard : Bool) : Nat → JDict → JVal → Option JVal
  | 0, _, _ => none
  | n + 1, d, .arr l => rrfsStory guard n d (.arr l)
  | n + 1, d, .obj f => rrfsStory guard n d (.obj f)
  | _ + 1, d, item =>
    match dictHit d item with
    | some e => some e
    | none => some item
end

/-- The src/src variant of `resolveRelationsForStory`: no key guard. -/
def resolveRelationsForStoryFuel (n : Nat) (d : JDict) (story : JVal) : Option JVal :=
  rrfsStory false n d story

/-- The sibling-file variant: keys 'uuid' and '_uid' are skipped. -/
def resolveRelationsForStoryGuardedFuel (n : Nat) (d : JDict) (story : JVal) : Option JVal :=
  rrfsStory true n d story

/-- Termination of the plain whole-tree resolver on a given story and
dictionary: some fuel suffices. -/
def wholeTreeResolveTerminates (d : JDict) (story : JVal) : Prop :=
  ∃ n r, resolveRelationsForStoryFuel n d story = some r

/-- Entry A of the reference cycle: its content holds B's identifier. -/
def storyA : JVal :=
  .obj (.cons "uuid" (.str "a")
    (.cons "content" (.obj (.cons "ref" (.str "b") .nil)) .nil))

/-- Entry B of the reference cycle: its content holds A's identifier. -/
def storyB : JVal :=
  .obj (.cons "uuid" (.str "b")
    (.cons "content" (.obj (.cons "ref" (.str "a") .nil)) .nil))

/-- The dictionary built from the two cyclic entries. -/
def dictAB : JDict := createReferencedStoriesDictionary [storyA, storyB]

/-- Helper: on the cyclic pair, every amount of fuel runs out — the
first entry's own identifier already hits the dictionary, and the
resolver re-enters the same story with less fuel forever. -/
theorem rrfs_cyclic_none : ∀ n, resolveRelationsForStoryFuel n dictAB storyA = none := by
  intro n
  induction n using Nat.strong_induction_on with
  | _ n ih =>
    match n with
    | 0 => rfl
    | 1 => rfl
    | 2 => rfl
    | (p + 3) =>
      have h := ih p (by omega)
      have e1 : resolveRelationsForStoryFuel (p + 3) dictAB storyA =
          ((rrfsStory false p dictAB storyA).bind (fun w =>
            (rrfsFields false (p + 1) dictAB
              (.cons "content" (.obj (.cons "ref" (.str "b") .nil)) .nil)).bind (fun rest =>
              some (.cons "uuid" w rest)))).map JVal.obj := by rfl
      rw [e1]
      rw [show rrfsStory false p dictAB storyA = none from h]
      rfl

/-- C1 counterexample: on the two mutually-referencing entries A and B
and the dictionary built from them, the whole-tree resolver wired into
`getAllStories` (`resolveRelationsForStory`, which has no visited set
and no depth cap) does not terminate: no amount of fuel completes the
run, refuting the claim that resolution terminates for every finite
entry list with a cycle guard in place. -/
theorem resolveRelationsForStory_cycle_diverges :
    ¬ wholeTreeResolveTerminates dictAB storyA := by
  rintro ⟨n, r, hr⟩
  rw [rrfs_cyclic_none n] at hr
  exact Option.noConfusion hr

/-- Whether a value is a JS string primitive. -/
def isJStr : JVal → Bool
  | .str _ => true
  | _ => false

/-- A story whose reserved identifier field holds a dictionary key. -/
def storyUuidOnly : JVal := .obj (.cons "uuid" (.str "a") .nil)

/-- A dictionary binding that key to an unrelated entry. -/
def dictBob : JDict := [("a", .obj (.cons "name" (.str "bob") .nil))]

/-- C4 counterexample: the src/src `resolveRelationsForStory` applies
no reserved-key guard — on a story whose `uuid` field holds the string
"a" and a dictionary containing key "a", the run terminates and the
`uuid` field no longer holds the original string: its value has been
substituted by the dictionary entry (an object), refuting the claim
that reserved keys are never substituted in either variant. -/
theorem resolveRelationsForStory_substitutes_uuid :
    resolveRelationsForStoryFuel 9 dictBob storyUuidOnly =
      some (.obj (.cons "uuid" (.obj (.cons "name" (.str "bob") .nil)) .nil)) ∧
    isJStr (jsGet storyUuidOnly "uuid") = true ∧
    isJStr (jsGet (.obj (.cons "uuid" (.obj (.cons "name" (.str "bob") .nil)) .nil)) "uuid") =
      false := by
  refine ⟨by rfl, rfl, rfl⟩

/-- C4 (amended): in the sibling-file variant of
`resolveRelationsForStory`, which skips keys named 'uuid' and '_uid',
every completed run preserves the key list of the walked object and the
values stored under the reserved keys. -/
theorem resolveRelationsForStoryGuarded_preserves_reserved :
    ∀ (n : Nat) (f : JFields) (d : JDict) (f2 : JFields),
      rrfsFields true n d f = some f2 →
      JFields.get f2 "uuid" = JFields.get f "uuid" ∧
      JFields.get f2 "_uid" = JFields.get f "_uid" := by
  intro n
  induction n using Nat.strong_induction_on with
  | _ n ih =>
    intro f d f2 h
    match n, f with
    | 0, f => exact Option.noConfusion h
    | m + 1, .nil =>
      have h2 : (some JFields.nil : Option JFields) = some f2 := h
      rw [← Option.some.inj h2]
      exact ⟨rfl, rfl⟩
    | m + 1, .cons k v f =>
      by_cases hres : reservedKey k = true
      · have hd : rrfsFields true (m + 1) d (.cons k v f) =
            (rrfsFields true m d f).bind (fun rest => some (.cons k v rest)) := by
          conv_lhs => rw [rrfsFields]
          rw [hres]
          rfl
        rw [hd] at h
        cases hrest : rrfsFields true m d f with
        | none => rw [hrest] at h; exact Option.noConfusion h
        | some rest =>
          rw [hrest] at h
          obtain ⟨h1, h2⟩ := ih m (by omega) f d rest hrest
          rw [← Option.some.inj h]
          constructor
          · by_cases hk : k = "uuid" <;> simp [JFields.get, hk, h1]
          · by_cases hk : k = "_uid" <;> simp [JFields.get, hk, h2]
      · have hknu : ¬(k = "uuid") := by
          intro hk
          subst hk
          simp [reservedKey] at hres
        have hknd : ¬(k = "_uid") := by
          intro hk
          subst hk
          simp [reservedKey] at hres
        have hd : rrfsFields true (m + 1) d (.cons k v f) =
            (rrfsValue true m d v).bind (fun w =>
              (rrfsFields true m d f).bind (fun rest => some (.cons k w rest))) := by
          conv_lhs => rw [rrfsFields]
          rw [Bool.eq_false_iff.mpr hres]
          rfl
        rw [hd] at h
        cases hw : rrfsValue true m d v with
        | none => rw [hw] at h; exact Option.noConfusion h
        | some w =>
          rw [hw] at h
          cases hrest : rrfsFields true m d f with
          | none => rw [hrest] at h; exact Option.noConfusion h
          | some rest =>
            rw [hrest] at h
            obtain ⟨h1, h2⟩ := ih m (by omega) f d rest hrest
            rw [← Option.some.inj h]
            exact ⟨by simp [JFields.get, hknu, h1], by simp [JFields.get, hknd, h2]⟩

/-- Witness for the amended C4: a concrete guarded run in which the
content of an entry is resolved while its `uuid` keeps the value that
coincides with a dictionary key. -/
theorem resolveRelationsForStoryGuarded_preserves_reserved_witness :
    rrfsFields true 9 dictBob (.cons "uuid" (.str "a") .nil) =
      some (.cons "uuid" (.str "a") .nil) ∧
    JFields.get (.cons "uuid" (.str "a") .nil) "uuid" =
      JFields.get (.cons "uuid" (.str "a") .nil) "uuid" := by
  have h : rrfsFields true 9 dictBob (.cons "uuid" (.str "a") .nil) =
      some (.cons "uuid" (.str "a") .nil) := by rfl
  refine ⟨h, ?_⟩
  exact (resolveRelationsForStoryGuarded_preserves_reserved
    9 (.cons "uuid" (.str "a") .nil) dictBob (.cons "uuid" (.str "a") .nil) h).1

/-!
Whole-tree Relation Resolver, depth-capped variant — fuel-indexed
embedding of `replaceUUIDs` inside `resolveRelationsPS` (lines
158-241).  The function carries the current depth, returns the content
unchanged once the depth reaches `maxDepth`, and increments the depth
exactly when it recurses into the content of a substituted dictionary
entry.  As before, fuel decreases on every call and `none` means the
fuel ran out.
-/

/-- Indexed fields of a spread array. -/
def jsIndexFields (i : Nat) : JList → JFields
  | .nil => .nil
  | .cons v l => .cons (toString i) v (jsIndexFields (i + 1) l)

/-- Indexed one-character fields of a spread string. -/
def jsCharFields (i : Nat) : List Char → JFields
  | [] => .nil
  | c :: cs => .cons (toString i) (.str (String.mk [c])) (jsCharFields (i + 1) cs)

/-- Fields of an object spread `{...v}`: objects contribute their
fields, arrays and strings their indexed elements, other primitives
nothing. -/
def jsSpreadFields (v : JVal) : JFields :=
  match v with
  | .obj f => f
  | .arr l => jsIndexFields 0 l
  | .str s => jsCharFields 0 s.data
  | _ => .nil

/-- Property assignment inside an object literal: the first occurrence
of the key is overridden in place, a missing key is appended. -/
def jsSetField : JFields → String → JVal → JFields
  | .nil, key, v => .cons key v .nil
  | .cons k w f, key, v =>
    if k = key then .cons k v f else .cons k w (jsSetField f key v)

/-- The object literal `{...story, content: c}`. -/
def jsSpreadSetContent (story : JVal) (c : JVal) : JVal :=
  .obj (jsSetField (jsSpreadFields story) "content" c)

/-- The test `typeof value === 'string' && referencedStoriesDictionary[value]`:
the story to substitute, when the value is a string whose dictionary
entry is truthy. -/
def fieldSubTarget (d : JDict) (v : JVal) : Option JVal :=
  match v with
  | .str s =>
    match dget d s with
    | some story => if truthy story then some story else none
    | none => none
  | _ => none

mutual
/-- One call `replaceUUIDs(content, currentDepth)`.  The dictionary and
the depth cap are the closed-over constants of the source closure; the
fuel and the current depth vary.  The cap test is hoisted into each
constructor branch (the JS function performs it once on entry, before
dispatching on the shape of `content`, with the same outcome). -/
def replaceUUIDsFuel (d : JDict) (maxD : Nat) : Nat → Nat → JVal → Option JVal
  | 0, _, _ => none
  | n + 1, depth, .arr items =>
    if maxD ≤ depth then some (.arr items)
    else (replaceUUIDsList d maxD n depth items).map .arr
  | n + 1, depth, .obj f =>
    if maxD ≤ depth then some (.obj f)
    else if truthy (jsGet (.obj f) "uuid") && truthy (jsGet (.obj f) "content") then
      (replaceUUIDsFuel d maxD n depth (jsGet (.obj f) "content")).map
        (fun c => jsSpreadSetContent (.obj f) c)
    else
      (replaceUUIDsFields d maxD n depth f).map .obj
  | n + 1, depth, .str s =>
    if maxD ≤ depth then some (.str s)
    else
      match fieldSubTarget d (.str s) with
      | some story =>
        (replaceUUIDsFuel d maxD n (depth + 1) (jsGet story "content")).map
          (fun c => jsSpreadSetContent story c)
      | none => some (.str s)
  | _ + 1, _, c => some c

/-- `content.map(item => replaceUUIDs(item, currentDepth))`. -/
def replaceUUIDsList (d : JDict) (maxD : Nat) : Nat → Nat → JList → Option JList
  | 0, _, _ => none
  | _ + 1, _, .nil => some .nil
  | n + 1, depth, .cons v l => do
    let w ← replaceUUIDsFuel d maxD n depth v
    let rest ← replaceUUIDsList d maxD n depth l
    pure (.cons w rest)

/-- The `for (key in content)` loop: reserved keys are copied, a
string value with a truthy dictionary entry is substituted with its
content resolved one level deeper, anything else recurses at the same
depth. -/
def replaceUUIDsFields (d : JDict) (maxD : Nat) : Nat → Nat → JFields → Option JFields
  | 0, _, _ => none
  | _ + 1, _, .nil => some .nil
  | n + 1, depth, .cons k v f =>
    if reservedKey k then do
      let rest ← replaceUUIDsFields d maxD n depth f
      pure (.cons k v rest)
    else
      match fieldSubTarget d v with
      | some story => do
        let c ← replaceUUIDsFuel d maxD n (depth + 1) (jsGet story "content")
        let rest ← replaceUUIDsFields d maxD n depth f
        pure (.cons k (jsSpreadSetContent story c) rest)
      | none => do
        let w ← replaceUUIDsFuel d maxD n depth v
        let rest ← replaceUUIDsFields d maxD n depth f
        pure (.cons k w rest)
end

/-- Termination of `replaceUUIDs` on a value: from some fuel on, the
run completes with a stable result. -/
def TermV (d : JDict) (maxD depth : Nat) (c : JVal) : Prop :=
  ∃ N r, ∀ n, N ≤ n → replaceUUIDsFuel d maxD n depth c = some r

/-- Termination of the item map on an array. -/
def TermL (d : JDict) (maxD depth : Nat) (l : JList) : Prop :=
  ∃ N r, ∀ n, N ≤ n → replaceUUIDsList d maxD n depth l = some r

/-- Termination of the field loop on an object. -/
def TermF (d : JDict) (maxD depth : Nat) (f : JFields) : Prop :=
  ∃ N r, ∀ n, N ≤ n → replaceUUIDsFields d maxD n depth f = some r

mutual
/-- Size of a value, for induction over the family. -/
def sizeJV : JVal → Nat
  | .arr l => 1 + sizeJL l
  | .obj f => 1 + sizeJF f
  | _ => 1

/-- Size of an array's elements. -/
def sizeJL : JList → Nat
  | .nil => 0
  | .cons v l => 1 + sizeJV v + sizeJL l

/-- Size of an object's fields. -/
def sizeJF : JFields → Nat
  | .nil => 0
  | .cons _ v f => 1 + sizeJV v + sizeJF f
end

/-- Helper: a field read returns a value no larger than the fields. -/
theorem sizeJV_get : ∀ (s : Nat) (f : JFields) (key : String) (v : JVal),
    sizeJF f ≤ s → JFields.get f key = some v → sizeJV v ≤ sizeJF f := by
  intro s
  induction s with
  | zero =>
    intro f key v hs hget
    match f with
    | .nil => exact Option.noConfusion hget
    | .cons k w f => simp [sizeJF] at hs
  | succ s ih =>
    intro f key v hs hget
    match f with
    | .nil => exact Option.noConfusion hget
    | .cons k w f =>
      rw [JFields.get] at hget
      by_cases hk : k = key
      · rw [if_pos hk] at hget
        rw [← Option.some.inj hget, sizeJF]
        omega
      · rw [if_neg hk] at hget
        have := ih f key v (by rw [sizeJF] at hs; omega) hget
        rw [sizeJF]
        omega

/-- Helper: the capped resolver returns any content unchanged. -/
theorem TermV_capped {d : JDict} {maxD depth : Nat} (h : maxD ≤ depth) (c : JVal) :
    TermV d maxD depth c := by
  refine ⟨1, c, ?_⟩
  intro n hn
  obtain ⟨m, rfl⟩ : ∃ m, n = m + 1 := ⟨n - 1, by omega⟩
  cases c <;> simp [replaceUUIDsFuel, if_pos h]

/-- Whether a value is a primitive other than a string. -/
def isPrimNonStr : JVal → Bool
  | .null => true
  | .undefined => true
  | .bool _ => true
  | .num _ => true
  | _ => false

/-- Helper: below the cap, a primitive other than a string resolves to
itself. -/
theorem TermV_prim {d : JDict} {maxD depth : Nat} (c : JVal)
    (hc : isPrimNonStr c = true) :
    TermV d maxD depth c := by
  refine ⟨1, c, ?_⟩
  intro n hn
  obtain ⟨m, rfl⟩ : ∃ m, n = m + 1 := ⟨n - 1, by omega⟩
  cases c <;> first | rfl | exact absurd hc (by simp [isPrimNonStr])

/-- Helper: below the cap, an array resolves once its items do. -/
theorem TermV_arr {d : JDict} {maxD depth : Nat} {items : JList}
    (hcap : ¬maxD ≤ depth) (hl : TermL d maxD depth items) :
    TermV d maxD depth (.arr items) := by
  obtain ⟨N, r, h⟩ := hl
  refine ⟨N + 1, .arr r, ?_⟩
  intro n hn
  obtain ⟨m, rfl⟩ : ∃ m, n = m + 1 := ⟨n - 1, by omega⟩
  have e : replaceUUIDsFuel d maxD (m + 1) depth (.arr items) =
      if maxD ≤ depth then some (.arr items)
      else (replaceUUIDsList d maxD m depth items).map .arr := rfl
  rw [e, if_neg hcap, h m (by omega)]
  rfl

/-- Helper: below the cap, a story-shaped object (truthy `uuid` and
`content`) resolves once its content value does (at the same depth). -/
theorem TermV_objStory {d : JDict} {maxD depth : Nat} {f : JFields}
    (hcap : ¬maxD ≤ depth)
    (hsto : (truthy (jsGet (.obj f) "uuid") && truthy (jsGet (.obj f) "content")) = true)
    (hc : TermV d maxD depth (jsGet (.obj f) "content")) :
    TermV d maxD depth (.obj f) := by
  obtain ⟨N, r, h⟩ := hc
  refine ⟨N + 1, jsSpreadSetContent (.obj f) r, ?_⟩
  intro n hn
  obtain ⟨m, rfl⟩ : ∃ m, n = m + 1 := ⟨n - 1, by omega⟩
  have e : replaceUUIDsFuel d maxD (m + 1) depth (.obj f) =
      if maxD ≤ depth then some (.obj f)
      else if truthy (jsGet (.obj f) "uuid") && truthy (jsGet (.obj f) "content") then
        (replaceUUIDsFuel d maxD m depth (jsGet (.obj f) "content")).map
          (fun c => jsSpreadSetContent (.obj f) c)
      else
        (replaceUUIDsFields d maxD m depth f).map .obj := rfl
  rw [e, if_neg hcap]
  simp only [hsto, if_true, h m (by omega)]
  rfl

/-- Helper: below the cap, a non-story object resolves once its field
loop does. -/
theorem TermV_objFields {d : JDict} {maxD depth : Nat} {f : JFields}
    (hcap : ¬maxD ≤ depth)
    (hsto : (truthy (jsGet (.obj f) "uuid") && truthy (jsGet (.obj f) "content")) = false)
    (hf : TermF d maxD depth f) :
    TermV d maxD depth (.obj f) := by
  obtain ⟨N, r, h⟩ := hf
  refine ⟨N + 1, .obj r, ?_⟩
  intro n hn
  obtain ⟨m, rfl⟩ : ∃ m, n = m + 1 := ⟨n - 1, by omega⟩
  have e : replaceUUIDsFuel d maxD (m + 1) depth (.obj f) =
      if maxD ≤ depth then some (.obj f)
      else if truthy (jsGet (.obj f) "uuid") && truthy (jsGet (.obj f) "content") then
        (replaceUUIDsFuel d maxD m depth (jsGet (.obj f) "content")).map
          (fun c => jsSpreadSetContent (.obj f) c)
      else
        (replaceUUIDsFields d maxD m depth f).map .obj := rfl
  rw [e, if_neg hcap]
  simp only [hsto, Bool.false_eq_true, if_false, h m (by omega)]
  rfl

/-- Helper: below the cap, a string with a truthy dictionary entry
resolves once the entry's content does, one level deeper. -/
theorem TermV_strSub {d : JDict} {maxD depth : Nat} {s : String} {story : JVal}
    (hcap : ¬maxD ≤ depth) (hsub : fieldSubTarget d (.str s) = some story)
    (hc : TermV d maxD (depth + 1) (jsGet story "content")) :
    TermV d maxD depth (.str s) := by
  obtain ⟨N, r, h⟩ := hc
  refine ⟨N + 1, jsSpreadSetContent story r, ?_⟩
  intro n hn
  obtain ⟨m, rfl⟩ : ∃ m, n = m + 1 := ⟨n - 1, by omega⟩
  have e : replaceUUIDsFuel d maxD (m + 1) depth (.str s) =
      if maxD ≤ depth then some (.str s)
      else
        match fieldSubTarget d (.str s) with
        | some story =>
          (replaceUUIDsFuel d maxD m (depth + 1) (jsGet story "content")).map
            (fun c => jsSpreadSetContent story c)
        | none => some (.str s) := rfl
  rw [e, if_neg hcap]
  simp only [hsub, h m (by omega)]
  rfl

/-- Helper: below the cap, a string without a truthy dictionary entry
resolves to itself. -/
theorem TermV_strMiss {d : JDict} {maxD depth : Nat} {s : String}
    (hcap : ¬maxD ≤ depth) (hsub : fieldSubTarget d (.str s) = none) :
    TermV d maxD depth (.str s) := by
  refine ⟨1, .str s, ?_⟩
  intro n hn
  obtain ⟨m, rfl⟩ : ∃ m, n = m + 1 := ⟨n - 1, by omega⟩
  have e : replaceUUIDsFuel d maxD (m + 1) depth (.str s) =
      if maxD ≤ depth then some (.str s)
      else
        match fieldSubTarget d (.str s) with
        | some story =>
          (replaceUUIDsFuel d maxD m (depth + 1) (jsGet story "content")).map
            (fun c => jsSpreadSetContent story c)
        | none => some (.str s) := rfl
  rw [e, if_neg hcap]
  simp only [hsub]

/-- Helper: the empty item map terminates. -/
theorem TermL_nil {d : JDict} {maxD depth : Nat} : TermL d maxD depth .nil := by
  refine ⟨1, .nil, ?_⟩
  intro n hn
  obtain ⟨m, rfl⟩ : ∃ m, n = m + 1 := ⟨n - 1, by omega⟩
  rfl

/-- Helper: the item map terminates once head and tail do. -/
theorem TermL_cons {d : JDict} {maxD depth : Nat} {v : JVal} {l : JList}
    (hv : TermV d maxD depth v) (hl : TermL d maxD depth l) :
    TermL d maxD depth (.cons v l) := by
  obtain ⟨N1, r1, h1⟩ := hv
  obtain ⟨N2, r2, h2⟩ := hl
  refine ⟨N1 + N2 + 1, .cons r1 r2, ?_⟩
  intro n hn
  obtain ⟨m, rfl⟩ : ∃ m, n = m + 1 := ⟨n - 1, by omega⟩
  have e : replaceUUIDsList d maxD (m + 1) depth (.cons v l) =
      (replaceUUIDsFuel d maxD m depth v).bind (fun w =>
        (replaceUUIDsList d maxD m depth l).bind (fun rest =>
          some (.cons w rest))) := rfl
  rw [e, h1 m (by omega), h2 m (by omega)]
  rfl

/-- Helper: the empty field loop terminates. -/
theorem TermF_nil {d : JDict} {maxD depth : Nat} : TermF d maxD depth .nil := by
  refine ⟨1, .nil, ?_⟩
  intro n hn
  obtain ⟨m, rfl⟩ : ∃ m, n = m + 1 := ⟨n - 1, by omega⟩
  rfl

/-- Helper: a reserved field is copied and the loop continues. -/
theorem TermF_reserved {d : JDict} {maxD depth : Nat} {k : String} {v : JVal}
    {f : JFields} (hres : reservedKey k = true) (hf : TermF d maxD depth f) :
    TermF d maxD depth (.cons k v f) := by
  obtain ⟨N, r, h⟩ := hf
  refine ⟨N + 1, .cons k v r, ?_⟩
  intro n hn
  obtain ⟨m, rfl⟩ : ∃ m, n = m + 1 := ⟨n - 1, by omega⟩
  have e : replaceUUIDsFields d maxD (m + 1) depth (.cons k v f) =
      if reservedKey k then
        (replaceUUIDsFields d maxD m depth f).bind (fun rest => some (.cons k v rest))
      else
        match fieldSubTarget d v with
        | some story =>
          (replaceUUIDsFuel d maxD m (depth + 1) (jsGet story "content")).bind (fun c =>
            (replaceUUIDsFields d maxD m depth f).bind (fun rest =>
              some (.cons k (jsSpreadSetContent story c) rest)))
        | none =>
          (replaceUUIDsFuel d maxD m depth v).bind (fun w =>
            (replaceUUIDsFields d maxD m depth f).bind (fun rest =>
              some (.cons k w rest))) := rfl
  rw [e]
  simp only [hres, if_true, h m (by omega)]
  rfl

/-- Helper: a substituted field terminates once the substituted
content (one level deeper) and the remaining loop do. -/
theorem TermF_sub {d : JDict} {maxD depth : Nat} {k : String} {v story : JVal}
    {f : JFields} (hres : reservedKey k = false)
    (hsub : fieldSubTarget d v = some story)
    (hc : TermV d maxD (depth + 1) (jsGet story "content"))
    (hf : TermF d maxD depth f) :
    TermF d maxD depth (.cons k v f) := by
  obtain ⟨N1, r1, h1⟩ := hc
  obtain ⟨N2, r2, h2⟩ := hf
  refine ⟨N1 + N2 + 1, .cons k (jsSpreadSetContent story r1) r2, ?_⟩
  intro n hn
  obtain ⟨m, rfl⟩ : ∃ m, n = m + 1 := ⟨n - 1, by omega⟩
  have e : replaceUUIDsFields d maxD (m + 1) depth (.cons k v f) =
      if reservedKey k then
        (replaceUUIDsFields d maxD m depth f).bind (fun rest => some (.cons k v rest))
      else
        match fieldSubTarget d v with
        | some story =>
          (replaceUUIDsFuel d maxD m (depth + 1) (jsGet story "content")).bind (fun c =>
            (replaceUUIDsFields d maxD m depth f).bind (fun rest =>
              some (.cons k (jsSpreadSetContent story c) rest)))
        | none =>
          (replaceUUIDsFuel d maxD m depth v).bind (fun w =>
            (replaceUUIDsFields d maxD m depth f).bind (fun rest =>
              some (.cons k w rest))) := rfl
  rw [e]
  simp only [hres, Bool.false_eq_true, if_false, hsub, h1 m (by omega), h2 m (by omega)]
  rfl

/-- Helper: an unsubstituted field terminates once its value (at the
same depth) and the remaining loop do. -/
theorem TermF_other {d : JDict} {maxD depth : Nat} {k : String} {v : JVal}
    {f : JFields} (hres : reservedKey k = false)
    (hsub : fieldSubTarget d v = none)
    (hv : TermV d maxD depth v) (hf : TermF d maxD depth f) :
    TermF d maxD depth (.cons k v f) := by
  obtain ⟨N1, r1, h1⟩ := hv
  obtain ⟨N2, r2, h2⟩ := hf
  refine ⟨N1 + N2 + 1, .cons k r1 r2, ?_⟩
  intro n hn
  obtain ⟨m, rfl⟩ : ∃ m, n = m + 1 := ⟨n - 1, by omega⟩
  have e : replaceUUIDsFields d maxD (m + 1) depth (.cons k v f) =
      if reservedKey k then
        (replaceUUIDsFields d maxD m depth f).bind (fun rest => some (.cons k v rest))
      else
        match fieldSubTarget d v with
        | some story =>
          (replaceUUIDsFuel d maxD m (depth + 1) (jsGet story "content")).bind (fun c =>
            (replaceUUIDsFields d maxD m depth f).bind (fun rest =>
              some (.cons k (jsSpreadSetContent story c) rest)))
        | none =>
          (replaceUUIDsFuel d maxD m depth v).bind (fun w =>
            (replaceUUIDsFields d maxD m depth f).bind (fun rest =>
              some (.cons k w rest))) := rfl
  rw [e]
  simp only [hres, Bool.false_eq_true, if_false, hsub, h1 m (by omega), h2 m (by omega)]
  rfl

/-- Helper: at or beyond the depth cap, every run terminates (the cap
returns values unchanged and the field loop only meets capped calls). -/
theorem replaceUUIDs_total_capped (d : JDict) (maxD depth : Nat) (h : maxD ≤ depth) :
    (∀ c, TermV d maxD depth c) ∧ (∀ l, TermL d maxD depth l) ∧
    (∀ f, TermF d maxD depth f) := by
  refine ⟨fun c => TermV_capped h c, ?_, ?_⟩
  · intro l
    suffices haux : ∀ s l, sizeJL l ≤ s → TermL d maxD depth l from
      haux (sizeJL l) l le_rfl
    intro s
    induction s with
    | zero =>
      intro l hl
      match l with
      | .nil => exact TermL_nil
      | .cons v l2 => rw [sizeJL] at hl; omega
    | succ s ih =>
      intro l hl
      match l with
      | .nil => exact TermL_nil
      | .cons v l2 =>
        rw [sizeJL] at hl
        exact TermL_cons (TermV_capped h v) (ih l2 (by omega))
  · intro f
    suffices haux : ∀ s f, sizeJF f ≤ s → TermF d maxD depth f from
      haux (sizeJF f) f le_rfl
    intro s
    induction s with
    | zero =>
      intro f hf
      match f with
      | .nil => exact TermF_nil
      | .cons k v f2 => rw [sizeJF] at hf; omega
    | succ s ih =>
      intro f hf
      match f with
      | .nil => exact TermF_nil
      | .cons k v f2 =>
        rw [sizeJF] at hf
        by_cases hres : reservedKey k = true
        · exact TermF_reserved hres (ih f2 (by omega))
        · cases hsub : fieldSubTarget d v with
          | some story =>
            exact TermF_sub (Bool.eq_false_iff.mpr hres) hsub
              (TermV_capped (by omega) _) (ih f2 (by omega))
          | none =>
            exact TermF_other (Bool.eq_false_iff.mpr hres) hsub
              (TermV_capped h v) (ih f2 (by omega))

/-- Helper: the depth-capped resolver terminates on every value, array
and field list, by induction on the remaining depth budget with an
inner induction on the size of the walked structure. -/
theorem replaceUUIDs_total_aux (d : JDict) (maxD : Nat) :
    ∀ (k depth : Nat), maxD - depth ≤ k →
      (∀ c, TermV d maxD depth c) ∧ (∀ l, TermL d maxD depth l) ∧
      (∀ f, TermF d maxD depth f) := by
  intro k
  induction k with
  | zero =>
    intro depth hk
    exact replaceUUIDs_total_capped d maxD depth (by omega)
  | succ k ih =>
    intro depth hk
    by_cases hcap : maxD ≤ depth
    · exact replaceUUIDs_total_capped d maxD depth hcap
    · have hdeeper : ∀ c, TermV d maxD (depth + 1) c := (ih (depth + 1) (by omega)).1
      suffices haux : ∀ s,
          (∀ c, sizeJV c ≤ s → TermV d maxD depth c) ∧
          (∀ l, sizeJL l ≤ s → TermL d maxD depth l) ∧
          (∀ f, sizeJF f ≤ s → TermF d maxD depth f) from
        ⟨fun c => (haux (sizeJV c)).1 c le_rfl,
         fun l => (haux (sizeJL l)).2.1 l le_rfl,
         fun f => (haux (sizeJF f)).2.2 f le_rfl⟩
      intro s
      induction s using Nat.strong_induction_on with
      | _ s ihs =>
        refine ⟨?_, ?_, ?_⟩
        · intro c hc
          match c with
          | .null => exact TermV_prim _ rfl
          | .undefined => exact TermV_prim _ rfl
          | .bool b => exact TermV_prim _ rfl
          | .num x => exact TermV_prim _ rfl
          | .str t =>
            cases hsubt : fieldSubTarget d (.str t) with
            | some story => exact TermV_strSub hcap hsubt (hdeeper _)
            | none => exact TermV_strMiss hcap hsubt
          | .arr items =>
            have hsz : sizeJL items < s := by rw [sizeJV] at hc; omega
            exact TermV_arr hcap ((ihs (sizeJL items) hsz).2.1 items le_rfl)
          | .obj f =>
            by_cases hsto :
                (truthy (jsGet (.obj f) "uuid") && truthy (jsGet (.obj f) "content")) = true
            · have hex : ∃ v, JFields.get f "content" = some v := by
                cases hget : JFields.get f "content" with
                | some v => exact ⟨v, rfl⟩
                | none =>
                  exfalso
                  have hu : jsGet (.obj f) "content" = .undefined := by
                    simp [jsGet, hget]
                  rw [hu] at hsto
                  simp [truthy] at hsto
              obtain ⟨v, hget⟩ := hex
              have hjg : jsGet (.obj f) "content" = v := by simp [jsGet, hget]
              have hszv : sizeJV v ≤ sizeJF f :=
                sizeJV_get (sizeJF f) f "content" v le_rfl hget
              have hszf : sizeJF f < s := by rw [sizeJV] at hc; omega
              have hTv : TermV d maxD depth v :=
                (ihs (sizeJV v) (by omega)).1 v le_rfl
              exact TermV_objStory hcap hsto (by rw [hjg]; exact hTv)
            · have hszf : sizeJF f < s := by rw [sizeJV] at hc; omega
              exact TermV_objFields hcap (Bool.eq_false_iff.mpr hsto)
                ((ihs (sizeJF f) hszf).2.2 f le_rfl)
        · intro l hl
          match l with
          | .nil => exact TermL_nil
          | .cons v l2 =>
            rw [sizeJL] at hl
            exact TermL_cons ((ihs (sizeJV v) (by omega)).1 v le_rfl)
              ((ihs (sizeJL l2) (by omega)).2.1 l2 le_rfl)
        · intro f hf
          match f with
          | .nil => exact TermF_nil
          | .cons key v f2 =>
            rw [sizeJF] at hf
            by_cases hres : reservedKey key = true
            · exact TermF_reserved hres ((ihs (sizeJF f2) (by omega)).2.2 f2 le_rfl)
            · cases hsubt : fieldSubTarget d v with
              | some story =>
                exact TermF_sub (Bool.eq_false_iff.mpr hres) hsubt (hdeeper _)
                  ((ihs (sizeJF f2) (by omega)).2.2 f2 le_rfl)
              | none =>
                exact TermF_other (Bool.eq_false_iff.mpr hres) hsubt
                  ((ihs (sizeJV v) (by omega)).1 v le_rfl)
                  ((ihs (sizeJF f2) (by omega)).2.2 f2 le_rfl)

/-- C1 (amended): the depth-capped whole-tree resolver `replaceUUIDs`
(inside `resolveRelationsPS`) terminates for every dictionary, depth
cap and content tree — including trees wired into reference cycles —
because recursion into substituted values raises the depth, and at the
cap the content is returned unchanged (second conjunct). -/
theorem replaceUUIDs_terminates :
    (∀ (d : JDict) (maxD depth : Nat) (c : JVal), TermV d maxD depth c) ∧
    (∀ (d : JDict) (maxD depth n : Nat) (c : JVal),
        maxD ≤ depth → 1 ≤ n → replaceUUIDsFuel d maxD n depth c = some c) := by
  constructor
  · intro d maxD depth c
    exact (replaceUUIDs_total_aux d maxD (maxD - depth) depth le_rfl).1 c
  · intro d maxD depth n c h hn
    obtain ⟨m, rfl⟩ : ∃ m, n = m + 1 := ⟨n - 1, by omega⟩
    cases c <;> simp [replaceUUIDsFuel, if_pos h]

/-- Witness for the amended C1: the capped resolver terminates on the
cyclic pair A ↔ B (a concrete bounded run completes), and a capped call
hands any content back unchanged. -/
theorem replaceUUIDs_terminates_witness :
    TermV dictAB 2 0 (jsGet storyA "content") ∧
    (replaceUUIDsFuel dictAB 2 40 0 (jsGet storyA "content")).isSome = true ∧
    replaceUUIDsFuel dictAB 20 5 25 (.str "a") = some (.str "a") := by
  refine ⟨replaceUUIDs_terminates.1 dictAB 2 0 _, by rfl, ?_⟩
  exact replaceUUIDs_terminates.2 dictAB 20 25 5 (.str "a") (by decide) (by decide)

/-!
Declared-field Relation Resolver — embedding of `findComponents` and
`resolveNestedComponents` from the sibling client file (lines 105-195)
together with its `RELATIONS_TO_RESOLVE` table from `utils.ts`.  The
`flat` package flattens the component subtree into dotted-path/leaf
pairs (arrays under numeric keys; nested empty objects and arrays are
leaves; the walk stops at non-objects); `lodash.get` reads dotted
pointers.  The JS loop mutates component objects in place; the
embedding threads the rebuilt subtree, writing back through the pointer
only when the iteration's changed flag was raised (an unchanged
iteration performs no assignment at all).
-/

/-- Path-key joining of the `flat` package (dot delimiter). -/
def joinKey (pre k : String) : String := if pre = "" then k else pre ++ "." ++ k

mutual
/-- Flattening of one nested value under a path prefix: a non-empty
object or array recurses, anything else (empty ones included) is a
leaf. -/
def flattenAux : String → JVal → List (String × JVal)
  | pre, .obj .nil => [(pre, .obj .nil)]
  | pre, .obj (.cons k v f) => flattenFields pre (.cons k v f)
  | pre, .arr .nil => [(pre, .arr .nil)]
  | pre, .arr (.cons v l) => flattenItems pre 0 (.cons v l)
  | pre, v => [(pre, v)]

/-- Flattening of object fields. -/
def flattenFields : String → JFields → List (String × JVal)
  | _, .nil => []
  | pre, .cons k v f => flattenAux (joinKey pre k) v ++ flattenFields pre f

/-- Flattening of array items under their indices. -/
def flattenItems : String → Nat → JList → List (String × JVal)
  | _, _, .nil => []
  | pre, i, .cons v l => flattenAux (joinKey pre (toString i)) v ++ flattenItems pre (i + 1) l
end

/-- `flatten(target)` at the top level: the walk starts from the
target's own keys (object fields or array indices), so a top-level
scalar or empty container flattens to nothing. -/
def flattenVal : JVal → List (String × JVal)
  | .obj f => flattenFields "" f
  | .arr l => flattenItems "" 0 l
  | _ => []

/-- `path.pop(); path.join('.')`: the parent of a dotted flat key. -/
def parentKey (k : String) : String :=
  ((jsSplit k ".").dropLast).foldl
    (fun acc seg => if acc = "" then seg else acc ++ "." ++ seg) ""

/-- Embedding of `findComponents(components, componentNamesToResolve)`:
the parent pointer and component name of every flattened leaf whose
value is one of the declared component-type names. -/
def findComponents (components : JVal) (names : List String) : List (String × String) :=
  (flattenVal components).filterMap (fun kv =>
    match kv.2 with
    | .str s => if names.contains s then some (parentKey kv.1, s) else none
    | _ => none)

/-- `lodash.get` along a dotted pointer, `undefined`-propagating. -/
def jsGetPath (v : JVal) : List String → JVal
  | [] => v
  | s :: rest => jsGetPath (jsGet v s) rest

/-- Replace the value of the first field with the given key, if any. -/
def updateFieldFirst (key : String) (g : JVal → JVal) : JFields → JFields
  | .nil => .nil
  | .cons k w f =>
    if k = key then .cons k (g w) f else .cons k w (updateFieldFirst key g f)

/-- Replace the element at an index, if present. -/
def updateIdx (g : JVal → JVal) : Nat → JList → JList
  | _, .nil => .nil
  | 0, .cons v l => .cons (g v) l
  | i + 1, .cons v l => .cons v (updateIdx g i l)

/-- Writing a new value through a dotted pointer: the pure counterpart
of mutating the object that `lodash.get` reached (a missing path leaves
the tree unchanged, as no object was reachable to mutate). -/
def setPathVal (newv : JVal) : List String → JVal → JVal
  | [], _ => newv
  | s :: rest, .obj f => .obj (updateFieldFirst s (fun w => setPathVal newv rest w) f)
  | s :: rest, .arr l =>
    match parseIndex s with
    | some i => .arr (updateIdx (fun w => setPathVal newv rest w) i l)
    | none => .arr l
  | _ :: _, v => v

/-- JS `String.prototype.includes`: substring containment (the source
tests `fieldsToResolve.includes(key)`, a substring test, not an
equality test). -/
def jsIncludes (s sub : String) : Bool :=
  containsGo sub.data s.data.length s.data

/-- Association update, first occurrence replaced or appended. -/
def setAssocStr : List (String × String) → String → String → List (String × String)
  | [], key, v => [(key, v)]
  | (k, w) :: d, key, v =>
    if k = key then (k, v) :: d else (k, w) :: setAssocStr d key v

/-- Association read, first occurrence. -/
def getAssocStr : List (String × String) → String → Option String
  | [], _ => none
  | (k, v) :: d, key => if k = key then some v else getAssocStr d key

/-- Embedding of the `relationsToResolve.reduce` building
`relationsMap`: each `"Component.field"` entry is split at dots and the
first two parts stored, the last entry for a component type winning. -/
def buildRelationsMap (rels : List String) : List (String × String) :=
  rels.foldl
    (fun acc item =>
      let parts := jsSplit item "."
      setAssocStr acc (parts.getD 0 "") (parts.getD 1 "")) []

/-- `uids.map(uid => dictionary?.[uid])`: element-wise lookup under the
JS string coercion of the element; an absent identifier yields
`undefined` — there is no fallback in the sequence branch. -/
def mapDictLookup (dict : JDict) : JList → JList
  | .nil => .nil
  | .cons e l =>
    .cons
      (match dget dict (jsToStr e) with
       | some w => w
       | none => .undefined)
      (mapDictLookup dict l)

/-- The body of the field loop (lines 167-185) for one key of the
component instance: a key contained in the declared field name is
processed — an array whose first element is a string is replaced
element-wise (raising the changed flag), a string is replaced by its
dictionary entry with fallback to the original string (raising the
changed flag even when the fallback re-stores the same string), and
everything else is untouched. -/
def resolveField (dict : JDict) (fieldsToResolve : String) (k : String) (v : JVal) :
    JVal × Bool :=
  if jsIncludes fieldsToResolve k then
    match v with
    | .arr (.cons (.str s0) t) => (.arr (mapDictLookup dict (.cons (.str s0) t)), true)
    | .arr l => (.arr l, false)
    | .str s =>
      (match dget dict s with
       | some e => if truthy e then e else .str s
       | none => .str s, true)
    | v => (v, false)
  else (v, false)

/-- The field loop over all keys of one component instance. -/
def processFields (dict : JDict) (ftr : String) : JFields → JFields × Bool
  | .nil => (.nil, false)
  | .cons k v f =>
    let r := resolveField dict ftr k v
    let rest := processFields dict ftr f
    (.cons k r.1 rest.1, r.2 || rest.2)

/-- Sequential processing of the found component instances: each
pointer is re-read from the current subtree (earlier substitutions are
visible), its object's declared fields are rewritten, and the rewritten
object is written back through the pointer when something changed. -/
def processFound (dict : JDict) (relMap : List (String × String)) :
    List (String × String) → JVal → JVal × Bool
  | [], comps => (comps, false)
  | (pointer, name) :: rest, comps =>
    let segs := jsSplit pointer "."
    let ftr := (getAssocStr relMap name).getD ""
    let r :=
      match jsGetPath comps segs with
      | .obj f =>
        let pf := processFields dict ftr f
        (JVal.obj pf.1, pf.2)
      | v => (v, false)
    let comps2 := if r.2 then setPathVal r.1 segs comps else comps
    let next := processFound dict relMap rest comps2
    (next.1, r.2 || next.2)

/-- The `while` loop of `resolveNestedComponents`: the condition admits
`maxLevelOfNesting + 1` iterations (the found-components assignment is
always truthy, so only `counter <= maxLevelOfNesting` restrains it);
an iteration that changes nothing breaks out through the no-change
flag.  Returns the subtree, whether the exit was through the no-change
flag, and the number of iterations run. -/
def nestedLoop (dict : JDict) (relMap : List (String × String)) (names : List String) :
    Nat → JVal → JVal × Bool × Nat
  | 0, comps => (comps, false, 0)
  | r + 1, comps =>
    let found := findComponents comps names
    let step := processFound dict relMap found comps
    if step.2 then
      let next := nestedLoop dict relMap names r step.1
      (next.1, next.2.1, next.2.2 + 1)
    else
      (step.1, true, 1)

/-- Embedding of `resolveNestedComponents(pathToComponents,
relationsToResolve, storyData, dictionary, maxLevelOfNesting)`,
instrumented with the loop's exit kind and iteration count.  A falsy
or missing component subtree returns the story unchanged. -/
def nestedCore (pathToComponents : String) (relationsToResolve : List String)
    (storyData : JVal) (dict : JDict) (maxLevelOfNesting : Nat) : JVal × Bool × Nat :=
  let segs := jsSplit pathToComponents "."
  let components := jsGetPath storyData segs
  if truthy components then
    let relMap := buildRelationsMap relationsToResolve
    let names := relMap.map Prod.fst
    let run := nestedLoop dict relMap names (maxLevelOfNesting + 1) components
    (setPathVal run.1 segs storyData, run.2.1, run.2.2)
  else
    (storyData, false, 0)

/-- The resolver as the source returns it: the (mutated) story. -/
def resolveNestedComponents (pathToComponents : String) (relationsToResolve : List String)
    (storyData : JVal) (dict : JDict) (maxLevelOfNesting : Nat) : JVal :=
  (nestedCore pathToComponents relationsToResolve storyData dict maxLevelOfNesting).1

/-- The static relation table of `utils.ts` (`RELATIONS_TO_RESOLVE`). -/
def RELATIONS_TO_RESOLVE : List String :=
  ["Target.modelLabel", "Target.modalTemplate", "List.label", "Template.story",
   "destination.tagLabel", "DestinationList.label", "DestinationList.fromLabel",
   "DestinationList.funnelingLabels", "DestinationCarousel.staticCards",
   "DestinationCarousel.fromLabel", "DestinationCarousel.seeAllLabel",
   "DestinationCarousel.funnelingLabels", "List.label", "ProductCarousel.products",
   "Stories.openCloseLabels", "Stories.previousNextLabels", "Stories.muteUnmuteLabels",
   "Template.story", "Testimonial.labels", "Target.funnelingLabels", "gallery.moreLabel",
   "InfomeetingCard.showLabels", "InfomeetingCard.checkboxLabel", "PopUp.dialogTemplate"]

/-- A dictionary entry for identifier "id1". -/
def entryE : JVal := .obj (.cons "uuid" (.str "id1") .nil)

/-- A dictionary containing only "id1". -/
def dictC3 : JDict := [("id1", entryE)]

/-- A component instance of type T with declared fields `a` (a present
identifier) and `b` (a sequence containing a non-string element). -/
def blockC3 : JVal :=
  .obj (.cons "component" (.str "T")
    (.cons "a" (.str "id1")
      (.cons "b" (.arr (.cons (.str "absent") (.cons (.num 42) .nil))) .nil)))

/-- A story whose content body holds that single component. -/
def storyC3 : JVal :=
  .obj (.cons "content" (.obj (.cons "body" (.arr (.cons blockC3 .nil)) .nil)) .nil)

/-- The resolver's actual output on that story. -/
def resolvedC3 : JVal :=
  .obj (.cons "content" (.obj (.cons "body" (.arr (.cons
    (.obj (.cons "component" (.str "T")
      (.cons "a" (.str "id1")
        (.cons "b" (.arr (.cons .undefined (.cons .undefined .nil))) .nil)))) .nil)) .nil)) .nil)

/-- C3 counterexample: with the Relation Specification declaring both
`T.a` and `T.b`, the declared-field resolver leaves the string field
`a` holding its identifier even though "id1" is in the dictionary
(the relations map keeps only the last declared field per component
type), and it rewrites the sequence field `b` — which contains a
non-string element and an absent identifier — to `[undefined,
undefined]` instead of leaving it untouched or falling back to the
original strings. -/
theorem resolveNestedComponents_field_counterexample :
    resolveNestedComponents "content.body" ["T.a", "T.b"] storyC3 dictC3 10 = resolvedC3 ∧
    dget dictC3 "id1" = some entryE ∧
    jsGetPath resolvedC3 ["content", "body", "0", "a"] = .str "id1" ∧
    isJStr entryE = false ∧
    jsGetPath storyC3 ["content", "body", "0", "b"] =
      .arr (.cons (.str "absent") (.cons (.num 42) .nil)) ∧
    jsGetPath resolvedC3 ["content", "body", "0", "b"] =
      .arr (.cons .undefined (.cons .undefined .nil)) := by
  refine ⟨by rfl, rfl, by rfl, rfl, by rfl, by rfl⟩

/-- Helper: reading an association after an update. -/
theorem getAssocStr_setAssocStr (d : List (String × String)) (k v key : String) :
    getAssocStr (setAssocStr d k v) key = if k = key then some v else getAssocStr d key := by
  induction d with
  | nil => by_cases h : k = key <;> simp [setAssocStr, getAssocStr, h]
  | cons p d ih =>
    obtain ⟨k2, w⟩ := p
    by_cases h2 : k2 = k
    · subst h2
      by_cases h : k2 = key <;> simp [setAssocStr, getAssocStr, h]
    · by_cases h : k2 = key
      · subst h
        have hk : ¬k = k2 := fun hk => h2 hk.symm
        simp [setAssocStr, getAssocStr, h2, hk]
      · simp [setAssocStr, getAssocStr, h2, h, ih]

/-- Helper: element-wise dictionary lookup of a sequence maps every
element to its entry, with `undefined` for an absent identifier. -/
theorem mapDictLookup_toList (d : JDict) :
    ∀ (s : Nat) (l : JList), sizeJL l ≤ s →
      JList.toList (mapDictLookup d l) =
        (JList.toList l).map (fun e => (dget d (jsToStr e)).getD .undefined) := by
  intro s
  induction s with
  | zero =>
    intro l hl
    match l with
    | .nil => rfl
    | .cons e t => rw [sizeJL] at hl; omega
  | succ s ih =>
    intro l hl
    match l with
    | .nil => rfl
    | .cons e t =>
      rw [sizeJL] at hl
      have e1 : mapDictLookup d (.cons e t) =
          .cons (match dget d (jsToStr e) with | some w => w | none => .undefined)
            (mapDictLookup d t) := rfl
      rw [e1, JList.toList, JList.toList, List.map_cons, ih t (by omega)]
      cases dget d (jsToStr e) <;> rfl

/-- C3 (amended): the relations map keeps the last declared field per
component type; a component-instance key participates exactly when it
is a substring of that declared field name; a participating string
field is replaced by its truthy dictionary entry with fallback to the
original string; a participating sequence whose first element is a
string is replaced element-wise with `undefined` for absent
identifiers (no fallback); an empty sequence, a sequence opening with
a non-string, and values of other shapes are untouched. -/
theorem resolveNestedComponents_declared_field_semantics :
    (∀ (rels : List String) (key field : String),
        jsSplit (key ++ "." ++ field) "." = [key, field] →
        getAssocStr (buildRelationsMap (rels ++ [key ++ "." ++ field])) key = some field)
    ∧ (∀ (d : JDict) (ftr k : String) (v : JVal),
        jsIncludes ftr k = false → resolveField d ftr k v = (v, false))
    ∧ (∀ (d : JDict) (ftr k s : String) (e : JVal),
        jsIncludes ftr k = true → dget d s = some e → truthy e = true →
        resolveField d ftr k (.str s) = (e, true))
    ∧ (∀ (d : JDict) (ftr k s : String),
        jsIncludes ftr k = true → dget d s = none →
        resolveField d ftr k (.str s) = (.str s, true))
    ∧ (∀ (d : JDict) (ftr k s0 : String) (t : JList),
        jsIncludes ftr k = true →
        resolveField d ftr k (.arr (.cons (.str s0) t)) =
          (.arr (mapDictLookup d (.cons (.str s0) t)), true))
    ∧ (∀ (d : JDict) (l : JList),
        JList.toList (mapDictLookup d l) =
          (JList.toList l).map (fun e => (dget d (jsToStr e)).getD .undefined))
    ∧ (∀ (d : JDict) (ftr k : String),
        jsIncludes ftr k = true → resolveField d ftr k (.arr .nil) = (.arr .nil, false))
    ∧ (∀ (d : JDict) (ftr k : String) (v : JVal) (t : JList),
        jsIncludes ftr k = true → isJStr v = false →
        resolveField d ftr k (.arr (.cons v t)) = (.arr (.cons v t), false))
    ∧ (∀ (d : JDict) (ftr k : String) (f : JFields),
        jsIncludes ftr k = true → resolveField d ftr k (.obj f) = (.obj f, false)) := by
  refine ⟨?_, ?_, ?_, ?_, ?_, ?_, ?_, ?_, ?_⟩
  · intro rels key field hsplit
    rw [buildRelationsMap, List.foldl_append, List.foldl_cons, List.foldl_nil, hsplit]
    have : getAssocStr
        (setAssocStr (buildRelationsMap rels) ([key, field].getD 0 "") ([key, field].getD 1 ""))
        key = some field := by
      rw [show ([key, field].getD 0 "") = key from rfl,
        show ([key, field].getD 1 "") = field from rfl,
        getAssocStr_setAssocStr, if_pos rfl]
    exact this
  · intro d ftr k v h
    simp [resolveField, h]
  · intro d ftr k s e hinc hd ht
    simp [resolveField, hinc, hd, ht]
  · intro d ftr k s hinc hd
    simp [resolveField, hinc, hd]
  · intro d ftr k s0 t hinc
    simp [resolveField, hinc]
  · intro d l
    exact mapDictLookup_toList d (sizeJL l) l le_rfl
  · intro d ftr k hinc
    simp [resolveField, hinc]
  · intro d ftr k v t hinc hv
    cases v <;> simp [isJStr] at hv <;> simp [resolveField, hinc]
  · intro d ftr k f hinc
    simp [resolveField, hinc]

/-- Witness for the amended C3: with the real table's Target entries,
the last declared field wins; a key that is a proper substring of the
declared field name is processed; a present identifier resolves with
fallback semantics; a sequence resolves element-wise to entries or
`undefined`. -/
theorem resolveNestedComponents_declared_field_semantics_witness :
    getAssocStr
      (buildRelationsMap
        (["Target.modelLabel", "Target.modalTemplate"] ++ ["Target.funnelingLabels"]))
      "Target" = some "funnelingLabels" ∧
    jsIncludes "modelLabel" "model" = true ∧
    resolveField dictC3 "modelLabel" "model" (.str "id1") = (entryE, true) ∧
    resolveField dictC3 "b" "b" (.arr (.cons (.str "absent") .nil)) =
      (.arr (.cons .undefined .nil), true) := by
  refine ⟨?_, rfl, ?_, ?_⟩
  · exact resolveNestedComponents_declared_field_semantics.1
      ["Target.modelLabel", "Target.modalTemplate"] "Target" "funnelingLabels" (by rfl)
  · exact resolveNestedComponents_declared_field_semantics.2.2.1
      dictC3 "modelLabel" "model" "id1" entryE rfl rfl rfl
  · have h := resolveNestedComponents_declared_field_semantics.2.2.2.2.1
      dictC3 "b" "b" "absent" .nil rfl
    rw [h]
    rfl

/-- Helper: an update function fixing the stored value fixes the
fields. -/
theorem updateFieldFirst_id (key : String) (g : JVal → JVal) :
    ∀ (s : Nat) (f : JFields), sizeJF f ≤ s →
      (∀ w, JFields.get f key = some w → g w = w) →
      updateFieldFirst key g f = f := by
  intro s
  induction s with
  | zero =>
    intro f hs hg
    match f with
    | .nil => rfl
    | .cons k w f => rw [sizeJF] at hs; omega
  | succ s ih =>
    intro f hs hg
    match f with
    | .nil => rfl
    | .cons k w f =>
      rw [sizeJF] at hs
      rw [updateFieldFirst]
      by_cases hk : k = key
      · rw [if_pos hk]
        have := hg w (by rw [JFields.get, if_pos hk])
        rw [this]
      · rw [if_neg hk, ih f (by omega)]
        intro w2 hw2
        exact hg w2 (by rw [JFields.get, if_neg hk]; exact hw2)

/-- Helper: an update function fixing the indexed element fixes the
list. -/
theorem updateIdx_id (g : JVal → JVal) :
    ∀ (s : Nat) (i : Nat) (l : JList), sizeJL l ≤ s →
      (∀ w, (JList.toList l)[i]? = some w → g w = w) →
      updateIdx g i l = l := by
  intro s
  induction s with
  | zero =>
    intro i l hs hg
    match i, l with
    | i, .nil => cases i <;> rfl
    | i, .cons v l => rw [sizeJL] at hs; omega
  | succ s ih =>
    intro i l hs hg
    match i, l with
    | i, .nil => cases i <;> rfl
    | 0, .cons v l =>
      rw [updateIdx, hg v (by rw [JList.toList]; simp)]
    | i + 1, .cons v l =>
      rw [sizeJL] at hs
      rw [updateIdx, ih i l (by omega)]
      intro w hw
      refine hg w ?_
      rw [JList.toList]
      simpa using hw

/-- Helper: writing back the value read through a pointer leaves the
tree unchanged. -/
theorem setPath_get_id : ∀ (segs : List String) (story : JVal),
    setPathVal (jsGetPath story segs) segs story = story := by
  intro segs
  induction segs with
  | nil => intro story; rfl
  | cons sg rest ih =>
    intro story
    match story with
    | .obj f =>
      have e1 : jsGetPath (.obj f) (sg :: rest) = jsGetPath (jsGet (.obj f) sg) rest := rfl
      have e2 : setPathVal (jsGetPath (jsGet (.obj f) sg) rest) (sg :: rest) (.obj f) =
          .obj (updateFieldFirst sg
            (fun w => setPathVal (jsGetPath (jsGet (.obj f) sg) rest) rest w) f) := rfl
      rw [e1, e2, updateFieldFirst_id sg _ (sizeJF f) f le_rfl]
      intro w hw
      have hjg : jsGet (.obj f) sg = w := by simp [jsGet, hw]
      rw [hjg]
      exact ih w
    | .arr l =>
      have e1 : jsGetPath (.arr l) (sg :: rest) = jsGetPath (jsGet (.arr l) sg) rest := rfl
      rw [e1]
      cases hidx : parseIndex sg with
      | none =>
        have e2 : setPathVal (jsGetPath (jsGet (.arr l) sg) rest) (sg :: rest) (.arr l) =
            match parseIndex sg with
            | some i => .arr (updateIdx
                (fun w => setPathVal (jsGetPath (jsGet (.arr l) sg) rest) rest w) i l)
            | none => .arr l := rfl
        rw [e2, hidx]
      | some i =>
        have e2 : setPathVal (jsGetPath (jsGet (.arr l) sg) rest) (sg :: rest) (.arr l) =
            match parseIndex sg with
            | some j => .arr (updateIdx
                (fun w => setPathVal (jsGetPath (jsGet (.arr l) sg) rest) rest w) j l)
            | none => .arr l := rfl
        rw [e2, hidx]
        show JVal.arr (updateIdx
          (fun w => setPathVal (jsGetPath (jsGet (.arr l) sg) rest) rest w) i l) = JVal.arr l
        rw [updateIdx_id _ (sizeJL l) i l le_rfl]
        intro w hw
        have hjg : jsGet (.arr l) sg = w := by simp [jsGet, hidx, hw]
        rw [hjg]
        exact ih w
    | .null => rfl
    | .undefined => rfl
    | .bool b => rfl
    | .num x => rfl
    | .str s2 =>
      have e2 : setPathVal (jsGetPath (.str s2) (sg :: rest)) (sg :: rest) (.str s2) =
          .str s2 := rfl
      rw [e2]

/-- Helper: a pass over the found components that raises no changed
flag performs no write at all. -/
theorem processFound_unchanged (d : JDict) (relMap : List (String × String)) :
    ∀ (found : List (String × String)) (comps : JVal),
      (processFound d relMap found comps).2 = false →
      (processFound d relMap found comps).1 = comps := by
  intro found
  induction found with
  | nil => intro comps _; rfl
  | cons pn rest ih =>
    intro comps h
    obtain ⟨pointer, name⟩ := pn
    rw [processFound] at h ⊢
    simp only [] at h ⊢
    by_cases hr :
        (match jsGetPath comps (jsSplit pointer ".") with
          | .obj f =>
            let pf := processFields d ((getAssocStr relMap name).getD "") f
            (JVal.obj pf.1, pf.2)
          | v => (v, false)).2 = true
    · rw [hr] at h
      simp at h
    · have hr2 :
          (match jsGetPath comps (jsSplit pointer ".") with
            | .obj f =>
              let pf := processFields d ((getAssocStr relMap name).getD "") f
              (JVal.obj pf.1, pf.2)
            | v => (v, false)).2 = false := by
        revert hr
        cases (match jsGetPath comps (jsSplit pointer ".") with
          | .obj f =>
            let pf := processFields d ((getAssocStr relMap name).getD "") f
            (JVal.obj pf.1, pf.2)
          | v => (v, false)).2 <;> simp
      rw [hr2] at h ⊢
      simp only [Bool.false_or] at h
      simp only [if_neg (by simp : ¬(false = true))]
      exact ih comps h

/-- C5 (amended): re-running the declared-field resolver on an entry
over which one resolution pass raises no changed flag returns the
entry unchanged, with the no-change flag exiting the fixed-point loop
at the first iteration, well before the iteration cap. -/
theorem resolveNestedComponents_second_run (p : String) (rels : List String)
    (story : JVal) (d : JDict) (maxNest : Nat)
    (htr : truthy (jsGetPath story (jsSplit p ".")) = true)
    (hnc : (processFound d (buildRelationsMap rels)
        (findComponents (jsGetPath story (jsSplit p "."))
          ((buildRelationsMap rels).map Prod.fst))
        (jsGetPath story (jsSplit p "."))).2 = false) :
    nestedCore p rels story d maxNest = (story, true, 1) ∧
    resolveNestedComponents p rels story d maxNest = story := by
  have eloop : nestedLoop d (buildRelationsMap rels)
      ((buildRelationsMap rels).map Prod.fst) (maxNest + 1)
      (jsGetPath story (jsSplit p ".")) =
      if (processFound d (buildRelationsMap rels)
          (findComponents (jsGetPath story (jsSplit p "."))
            ((buildRelationsMap rels).map Prod.fst))
          (jsGetPath story (jsSplit p "."))).2 then
        (let next := nestedLoop d (buildRelationsMap rels)
            ((buildRelationsMap rels).map Prod.fst) maxNest
            (processFound d (buildRelationsMap rels)
              (findComponents (jsGetPath story (jsSplit p "."))
                ((buildRelationsMap rels).map Prod.fst))
              (jsGetPath story (jsSplit p "."))).1
         (next.1, next.2.1, next.2.2 + 1))
      else
        ((processFound d (buildRelationsMap rels)
            (findComponents (jsGetPath story (jsSplit p "."))
              ((buildRelationsMap rels).map Prod.fst))
            (jsGetPath story (jsSplit p "."))).1, true, 1) := rfl
  have hloop : nestedLoop d (buildRelationsMap rels)
      ((buildRelationsMap rels).map Prod.fst) (maxNest + 1)
      (jsGetPath story (jsSplit p ".")) =
      (jsGetPath story (jsSplit p "."), true, 1) := by
    rw [eloop, hnc]
    simp only [Bool.false_eq_true, if_false]
    rw [processFound_unchanged d (buildRelationsMap rels) _ _ hnc]
  have ecore : nestedCore p rels story d maxNest =
      if truthy (jsGetPath story (jsSplit p ".")) then
        (setPathVal (nestedLoop d (buildRelationsMap rels)
            ((buildRelationsMap rels).map Prod.fst) (maxNest + 1)
            (jsGetPath story (jsSplit p "."))).1 (jsSplit p ".") story,
         (nestedLoop d (buildRelationsMap rels)
            ((buildRelationsMap rels).map Prod.fst) (maxNest + 1)
            (jsGetPath story (jsSplit p "."))).2.1,
         (nestedLoop d (buildRelationsMap rels)
            ((buildRelationsMap rels).map Prod.fst) (maxNest + 1)
            (jsGetPath story (jsSplit p "."))).2.2)
      else (story, false, 0) := rfl
  have hcore : nestedCore p rels story d maxNest = (story, true, 1) := by
    rw [ecore, htr, if_pos rfl, hloop]
    simp only []
    rw [setPath_get_id]
  refine ⟨hcore, ?_⟩
  rw [resolveNestedComponents, hcore]

/-- A story whose single component instance is already resolved: its
declared field `a` holds an entry object, not an identifier string. -/
def storyResolvedW : JVal :=
  .obj (.cons "content" (.obj (.cons "body"
    (.arr (.cons (.obj (.cons "component" (.str "T") (.cons "a" entryE .nil))) .nil))
    .nil)) .nil)

/-- Witness for the amended C5: on the already-resolved story, the
second run changes nothing and the no-change flag exits at the first
iteration. -/
theorem resolveNestedComponents_second_run_witness :
    nestedCore "content.body" ["T.a"] storyResolvedW [] 10 = (storyResolvedW, true, 1) ∧
    resolveNestedComponents "content.body" ["T.a"] storyResolvedW [] 10 = storyResolvedW :=
  resolveNestedComponents_second_run "content.body" ["T.a"] storyResolvedW [] 10
    (by rfl) (by rfl)

/-- An entry whose declared string field holds an identifier absent
from the dictionary: the fallback re-stores the same string, yet the
source sets the changed flag, so the loop never exits through it. -/
def storyC5 : JVal :=
  .obj (.cons "content" (.obj (.cons "body"
    (.arr (.cons (.obj (.cons "component" (.str "U")
      (.cons "x" (.str "missing") .nil))) .nil)) .nil)) .nil)

/-- C5 counterexample: this entry is its own resolution — running the
resolver returns it unchanged, so a second run is a run on an
already-resolved entry — yet the run exits through the iteration cap
(flag `false`) after all 11 permitted iterations, because the absent
identifier's fallback raises the changed flag every time; the
no-change flag never triggers, refuting the claim that it exits the
loop before the cap is reached. -/
theorem resolveNestedComponents_cap_exit_counterexample :
    nestedCore "content.body" ["U.x"] storyC5 [] 10 = (storyC5, false, 11) ∧
    resolveNestedComponents "content.body" ["U.x"] storyC5 [] 10 = storyC5 :=
  ⟨by rfl, by rfl⟩
